import Mathlib

/-!
A shallow embedding of the declaration transformer of `rollup-plugin-dts`
(file `dist/rollup-plugin-dts.mjs`): the preprocessor (`preProcess`), the
scope tracker and graph builder (`DeclarationScope`, `Transformer`), and the
namespace reconstructor (`NamespaceFixer`).  Definitions mirror the source
functions of the same names; theorems at the end of the file settle the
stated properties.
-/

namespace RollupDts

/-- Errors raised by the transformer.  `unsupported` models
`UnsupportedSyntaxError`; `typeError` models a JavaScript `TypeError`
(e.g. destructuring `undefined`). -/
inductive Err where
  | unsupported (msg : String)
  | typeError (msg : String)
deriving DecidableEq, Repr

/-- Decidable equality of `Except` results, for evaluating the models on
concrete inputs. -/
instance {e a : Type} [DecidableEq e] [DecidableEq a] : DecidableEq (Except e a) := fun x y =>
  match x, y with
  | .error u, .error v =>
    if h : u = v then isTrue (h ▸ rfl) else isFalse (fun hc => h (Except.error.inj hc))
  | .ok u, .ok v =>
    if h : u = v then isTrue (h ▸ rfl) else isFalse (fun hc => h (Except.ok.inj hc))
  | .error _, .ok _ => isFalse (fun hc => Except.noConfusion hc)
  | .ok _, .error _ => isFalse (fun hc => Except.noConfusion hc)

/-! ### Decimal rendering of counters

The source creates synthetic identifier names via `String(IDs++)`.  We model
JavaScript's `String(n)` for a non-negative integer as the usual decimal
rendering, and prove it injective so distinct counters give distinct names. -/

/-- Decimal digits, most significant first, with explicit fuel (`n` itself
is always enough fuel, since dividing by 10 at least halves the number). -/
def digits10Go : Nat → Nat → List Nat
  | 0, n => [n]
  | fuel + 1, n => if n < 10 then [n] else digits10Go fuel (n / 10) ++ [n % 10]

/-- Decimal digits of `n`, most significant first (`[0]` for `0`). -/
def digits10 (n : Nat) : List Nat := digits10Go n n

theorem digits10Go_fuel : ∀ fuel n : Nat, n ≤ fuel → digits10Go fuel n = digits10 n := by
  intro fuel
  induction fuel using Nat.strong_induction_on with
  | _ fuel ih =>
    intro n h
    match fuel with
    | 0 =>
      have hn : n = 0 := by omega
      subst hn
      rfl
    | f + 1 =>
      by_cases h10 : n < 10
      · rw [digits10Go, if_pos h10]
        match n, h10 with
        | 0, _ => rfl
        | m + 1, h10 => rw [digits10, digits10Go, if_pos h10]
      · have hd : n / 10 < n := Nat.div_lt_self (by omega) (by omega)
        rw [digits10Go, if_neg h10]
        rw [ih f (by omega) (n / 10) (by omega)]
        have hn : ∃ m, n = m + 1 := ⟨n - 1, by omega⟩
        obtain ⟨m, rfl⟩ := hn
        rw [show digits10 (m + 1) = digits10Go (m + 1) (m + 1) from rfl]
        rw [digits10Go, if_neg h10, ih m (by omega) ((m + 1) / 10) (by omega)]

/-- The recursive unfolding of `digits10`. -/
theorem digits10_eq (n : Nat) :
    digits10 n = if n < 10 then [n] else digits10 (n / 10) ++ [n % 10] := by
  by_cases h10 : n < 10
  · rw [if_pos h10]
    match n, h10 with
    | 0, _ => rfl
    | m + 1, h10 => rw [digits10, digits10Go, if_pos h10]
  · rw [if_neg h10]
    have hn : ∃ m, n = m + 1 := ⟨n - 1, by omega⟩
    obtain ⟨m, rfl⟩ := hn
    rw [show digits10 (m + 1) = digits10Go (m + 1) (m + 1) from rfl]
    rw [digits10Go, if_neg h10]
    rw [digits10Go_fuel m ((m + 1) / 10) (by omega)]

/-- Character for a single decimal digit. -/
def digitChar10 (d : Nat) : Char := Char.ofNat (48 + d)

/-- Decimal rendering of a `Nat`, modelling JavaScript `String(n)`. -/
def natToString (n : Nat) : String :=
  String.mk ((digits10 n).map digitChar10)

/-- Recombining the decimal digits. -/
def undigits10 (ds : List Nat) : Nat := ds.foldl (fun a d => a * 10 + d) 0

theorem undigits10_append (ds : List Nat) (d : Nat) :
    undigits10 (ds ++ [d]) = undigits10 ds * 10 + d := by
  simp [undigits10]

theorem undigits10_digits10 (n : Nat) : undigits10 (digits10 n) = n := by
  induction n using Nat.strong_induction_on with
  | _ n ih =>
    rw [digits10_eq]
    split
    · simp [undigits10]
    · rw [undigits10_append, ih (n / 10) (Nat.div_lt_self (by omega) (by omega))]
      omega

theorem digits10_lt (n : Nat) : ∀ d ∈ digits10 n, d < 10 := by
  induction n using Nat.strong_induction_on with
  | _ n ih =>
    rw [digits10_eq]
    split
    · simpa using (by omega : n < 10)
    · intro d hd
      rcases List.mem_append.1 hd with h | h
      · exact ih (n / 10) (Nat.div_lt_self (by omega) (by omega)) d h
      · simp at h; omega

theorem digitChar10_inj {a b : Nat} (ha : a < 10) (hb : b < 10)
    (h : digitChar10 a = digitChar10 b) : a = b := by
  interval_cases a <;> interval_cases b <;> first | rfl | (exfalso; exact absurd h (by decide))

theorem natToString_inj {m n : Nat} (h : natToString m = natToString n) : m = n := by
  have hlist : (digits10 m).map digitChar10 = (digits10 n).map digitChar10 := by
    simpa [natToString] using congrArg String.data h
  have hd : digits10 m = digits10 n := by
    have hm := digits10_lt m
    have hn := digits10_lt n
    revert hlist hm hn
    generalize digits10 m = xs
    generalize digits10 n = ys
    induction xs generalizing ys with
    | nil => cases ys <;> simp
    | cons x xs ihx =>
      cases ys with
      | nil => simp
      | cons y ys =>
        intro hlist hm hn
        simp only [List.map_cons, List.cons.injEq] at hlist
        have hx := digitChar10_inj (hm x (by simp)) (hn y (by simp)) hlist.1
        have := ihx ys hlist.2 (fun d hd => hm d (by simp [hd])) (fun d hd => hn d (by simp [hd]))
        simp [hx, this]
  calc m = undigits10 (digits10 m) := (undigits10_digits10 m).symm
    _ = undigits10 (digits10 n) := by rw [hd]
    _ = n := undigits10_digits10 n

/-! ### ESTree expressions and references

The graph builder converts TypeScript entity names into ESTree
`Identifier` / `MemberExpression` nodes and wraps them into synthetic
`AssignmentPattern` parameters (`createReference`). -/

/-- The ESTree expressions the transformer produces (`Literal`,
`Identifier`, `MemberExpression`). -/
inductive ESExpr where
  | lit (value : String)
  | ident (name : String)
  | member (obj : ESExpr) (prop : String)
deriving DecidableEq, Repr

/-- A synthetic reference marker: the `AssignmentPattern` `_ = id` produced by
`createReference`, whose `left` is a fresh synthetic identifier name. -/
structure Ref where
  left : String
  right : ESExpr
deriving DecidableEq, Repr

/-- Model of `createReference(id)`: builds `{left: String(IDs++), right: id}`.
The module-global counter `IDs` is threaded explicitly. -/
def createReference (id : ESExpr) (counter : Nat) : Ref × Nat :=
  ({ left := natToString counter, right := id }, counter + 1)

/-! ### DeclarationScope state

A `DeclarationScope` owns a stack of scopes (sets of bound type-variable
names), the `params` array of its ESTree declaration (where references are
accumulated), and uses the global `IDs` counter.  The JavaScript array grows
at its end; the model's list keeps the top of the stack at the head, which
only reverses the (irrelevant) iteration order of the membership test. -/

structure St where
  scopes : List (List String)
  params : List Ref
  counter : Nat
deriving DecidableEq, Repr

/-- Model of `DeclarationScope.pushScope`. -/
def pushScope (s : St) : St := { s with scopes := [] :: s.scopes }

/-- Model of `DeclarationScope.popScope(n)`; popping an empty stack is a
no-op, as for a JavaScript array. -/
def popScope (n : Nat) (s : St) : St := { s with scopes := s.scopes.drop n }

/-- Model of `DeclarationScope.pushTypeVariable`: adds the name to the
topmost scope; a no-op when the stack is empty (optional chaining). -/
def pushTypeVariable (name : String) (s : St) : St :=
  match s.scopes with
  | [] => s
  | top :: rest => { s with scopes := (name :: top) :: rest }

/-- Model of `DeclarationScope.pushRaw`: appends to the declaration's
`params`. -/
def pushRaw (expr : Ref) (s : St) : St := { s with params := s.params ++ [expr] }

/-- Whether `name` is bound in any scope on the stack. -/
def isBound (name : String) (scopes : List (List String)) : Bool :=
  scopes.any (fun scope => name ∈ scope)

/-- Model of `DeclarationScope.pushReference`: computes the left-most
identifier only for a bare `Identifier` or a `MemberExpression` whose object
is itself an `Identifier`; when that name is bound in some scope the
reference is suppressed, otherwise a fresh reference is pushed. -/
def pushReference (id : ESExpr) (s : St) : St :=
  let name : Option String :=
    match id with
    | .ident n => some n
    | .member (.ident n) _ => some n
    | _ => none
  match name with
  | some n =>
    if isBound n s.scopes then s
    else
      let (r, c) := createReference id s.counter
      pushRaw r { s with counter := c }
  | none =>
    let (r, c) := createReference id s.counter
    pushRaw r { s with counter := c }

/-- Model of `DeclarationScope.pushIdentifierReference`. -/
def pushIdentifierReference (name : String) (s : St) : St :=
  pushReference (.ident name) s

/-! ### uniqName

`preProcess` synthesizes collision-free names by prefixing underscores until
the name is not in `declaredNames`, then records it there. -/

/-- The candidate with `k` leading underscores. -/
def underscored (k : Nat) (hint : String) : String :=
  String.mk (List.replicate k '_') ++ hint

/-- The while-loop of `uniqName`, with explicit fuel (the loop terminates
because the candidates all have distinct lengths and the name set is
finite). -/
def uniqNameGo (declared : List String) : Nat → String → String
  | 0, name => name
  | fuel + 1, name => if name ∈ declared then uniqNameGo declared fuel ("_" ++ name) else name

/-- Model of `uniqName(hint)`: returns the first underscore-prefixed variant
of `hint` not in `declaredNames` and adds it to the set. -/
def uniqName (declared : List String) (hint : String) : String × List String :=
  let name := uniqNameGo declared (declared.length + 1) hint
  (name, declared ++ [name])

/-! ### The TypeScript AST subset walked by the graph builder

The model covers the node shapes `DeclarationScope` inspects.  Names are
plain strings (private identifiers and non-identifier binding patterns are
outside the modelled subset). -/

/-- A TypeScript `EntityName`: an identifier or a qualified name. -/
inductive EntityName where
  | ident (name : String)
  | qualified (left : EntityName) (right : String)
deriving DecidableEq, Repr

/-- The TypeScript expressions reachable from heritage clauses and computed
property names: literals, identifiers, property accesses, and a catch-all
for every other expression kind (which raises `UnsupportedSyntaxError`). -/
inductive Expr where
  | lit (value : String)
  | ident (name : String)
  | access (obj : Expr) (prop : String)
  | other
deriving DecidableEq, Repr

/-- An export clause: `* as name`, or a list of `(propertyName?, name)`
specifiers. -/
inductive ExportClause where
  | namespaceExport (name : String)
  | named (elems : List (Option String × String))
deriving DecidableEq, Repr

mutual
/-- The type-node forms distinguished by `DeclarationScope.convertTypeNode`.
`ignored` stands for every kind in `IGNORE_TYPENODES`; `wrapped` stands for
the forms that just recurse into one inner type (`NamedTupleMember`,
`ParenthesizedType`, `TypeOperator`, `TypePredicate`). -/
inductive TypeNode where
  | ignored
  | typeRef (name : EntityName) (args : List TypeNode)
  | typeLit (members : List Member)
  | arrayType (elem : TypeNode)
  | tupleType (elems : List TypeNode)
  | wrapped (type : TypeNode)
  | unionOrIntersection (types : List TypeNode)
  | mapped (paramName : String) (constraint : Option TypeNode)
      (type : Option TypeNode) (nameType : Option TypeNode)
  | conditional (checkType extendsType trueType falseType : TypeNode)
  | indexedAccess (objectType indexType : TypeNode)
  | functionOrCtor (sig : Sig)
  | typeQuery (exprName : EntityName)
  | restType (type : TypeNode)
  | optionalType (type : TypeNode)
  | templateLiteral (spanTypes : List TypeNode)
  | inferType (paramName : String)
  | unsupportedType

/-- A class/interface/type-literal member, as dispatched by
`convertMembers`: property-like members (property declaration/signature,
index signature) carry an optional computed name and an optional type;
method-like members carry a full signature. -/
inductive Member where
  | propertyLike (computedName : Option Expr) (type : Option TypeNode)
  | methodLike (sig : Sig)
  | unsupportedMember

/-- A type parameter declaration. -/
inductive TypeParamD where
  | mk (name : String) (constraint : Option TypeNode) (dflt : Option TypeNode)

/-- The data consumed by `convertParametersAndType`: optional computed name,
type parameters, parameter types, and return/declared type. -/
inductive Sig where
  | mk (computedName : Option Expr) (typeParams : List TypeParamD)
      (params : List (Option TypeNode)) (type : Option TypeNode)

/-- One entry of a heritage clause (`ExpressionWithTypeArguments`). -/
inductive HeritageType where
  | mk (expr : Expr) (args : List TypeNode)

/-- A statement inside a namespace body, as dispatched by
`convertNamespace`. -/
inductive NamespaceStmt where
  | enumDecl (name : String)
  | funcDecl (name : String) (sig : Sig)
  | classOrInterfaceDecl (name : String) (typeParams : List TypeParamD)
      (heritage : List HeritageType) (members : List Member)
  | typeAliasDecl (name : String) (typeParams : List TypeParamD) (type : TypeNode)
  | moduleDecl (name : String) (body : List NamespaceStmt)
  | moduleDeclNoBody (name : String)
  | varStmt (decls : List (String × Option TypeNode))
  | exportDecl (clause : Option ExportClause)
  | unsupportedStmt
end

namespace Sig
/-- Projections for `Sig`. -/
def computedName : Sig → Option Expr | .mk n _ _ _ => n
def typeParams : Sig → List TypeParamD | .mk _ t _ _ => t
def params : Sig → List (Option TypeNode) | .mk _ _ p _ => p
def type : Sig → Option TypeNode | .mk _ _ _ ty => ty
end Sig

namespace TypeParamD
/-- Projections for `TypeParamD`. -/
def name : TypeParamD → String | .mk n _ _ => n
def constraint : TypeParamD → Option TypeNode | .mk _ c _ => c
def dflt : TypeParamD → Option TypeNode | .mk _ _ d => d
end TypeParamD

/-- Model of `convertEntityName`: a qualified name becomes a nested
`MemberExpression` whose innermost object is the left-most identifier. -/
def convertEntityName : EntityName → ESExpr
  | .ident n => .ident n
  | .qualified l r => .member (convertEntityName l) r

/-- Model of `convertExpression` (literals, property accesses,
identifiers; anything else is unsupported). -/
def convertExpression : Expr → Except Err ESExpr
  | .lit v => .ok (.lit v)
  | .access obj prop =>
    match convertExpression obj with
    | .ok o => .ok (.member o prop)
    | .error e => .error e
  | .ident n => .ok (.ident n)
  | .other => .error (.unsupported "convertExpression")

/-- Model of `DeclarationScope.convertPropertyAccess`: the object must be an
identifier or another property access. -/
def convertPropertyAccess : Expr → Except Err ESExpr
  | .access obj prop =>
    match obj with
    | .ident n => .ok (.member (.ident n) prop)
    | .access o p =>
      match convertPropertyAccess (.access o p) with
      | .ok o2 => .ok (.member o2 prop)
      | .error e => .error e
    | _ => .error (.unsupported "convertPropertyAccess")
  | _ => .error (.unsupported "convertPropertyAccess")

/-- Model of `DeclarationScope.convertComputedPropertyName`: absent or
non-computed names and literal keys do nothing; identifier and
property-access keys push a reference; anything else is unsupported. -/
def convertComputedPropertyName (name : Option Expr) (s : St) : Except Err St :=
  match name with
  | none => .ok s
  | some e =>
    match e with
    | .lit _ => .ok s
    | .ident n => .ok (pushReference (.ident n) s)
    | .access o p =>
      match convertPropertyAccess (.access o p) with
      | .ok pa => .ok (pushReference pa s)
      | .error err => .error err
    | .other => .error (.unsupported "convertComputedPropertyName")

/-- The hoisting pass of `convertNamespace`: every member's declared name is
bound into the fresh scope before any member is walked. -/
def hoistNamespaceStmts : List NamespaceStmt → St → Except Err St
  | [], s => .ok s
  | .enumDecl n :: rest, s => hoistNamespaceStmts rest (pushTypeVariable n s)
  | .funcDecl n _ :: rest, s => hoistNamespaceStmts rest (pushTypeVariable n s)
  | .classOrInterfaceDecl n _ _ _ :: rest, s => hoistNamespaceStmts rest (pushTypeVariable n s)
  | .typeAliasDecl n _ _ :: rest, s => hoistNamespaceStmts rest (pushTypeVariable n s)
  | .moduleDecl n _ :: rest, s => hoistNamespaceStmts rest (pushTypeVariable n s)
  | .moduleDeclNoBody n :: rest, s => hoistNamespaceStmts rest (pushTypeVariable n s)
  | .varStmt decls :: rest, s =>
    hoistNamespaceStmts rest (decls.foldl (fun acc d => pushTypeVariable d.1 acc) s)
  | .exportDecl _ :: rest, s => hoistNamespaceStmts rest s
  | .unsupportedStmt :: _rest, _s =>
    .error (.unsupported "namespace child (hoisting) not supported yet")

mutual
/-- Model of `DeclarationScope.convertTypeNode` for an optional node (an
absent node does nothing); the present-node cases are in
`convertTypeNodeCore`. -/
def convertTypeNode : Option TypeNode → St → Except Err St
  | none, s => .ok s
  | some t, s => convertTypeNodeCore t s
termination_by structural o _s => o

/-- The node-kind dispatch of `DeclarationScope.convertTypeNode`.  Children
that are syntactically required in the TypeScript AST are converted
directly; optional children go through `convertTypeNode`. -/
def convertTypeNodeCore : TypeNode → St → Except Err St
  | .ignored, s => .ok s
  | .typeRef name args, s => convertTypeNodeList args (pushReference (convertEntityName name) s)
  | .typeLit members, s => convertMembers members s
  | .arrayType elem, s => convertTypeNodeCore elem s
  | .tupleType elems, s => convertTypeNodeList elems s
  | .wrapped ty, s => convertTypeNodeCore ty s
  | .unionOrIntersection types, s => convertTypeNodeList types s
  | .mapped paramName constraint ty nameType, s =>
    match convertTypeNode constraint s with
    | .error e => .error e
    | .ok s1 =>
      match convertTypeNode ty (pushTypeVariable paramName (pushScope s1)) with
      | .error e => .error e
      | .ok s3 =>
        match convertTypeNode nameType s3 with
        | .error e => .error e
        | .ok s4 => .ok (popScope 1 s4)
  | .conditional checkType extendsType trueType falseType, s =>
    match convertTypeNodeCore checkType s with
    | .error e => .error e
    | .ok s1 =>
      match convertTypeNodeCore extendsType (pushScope s1) with
      | .error e => .error e
      | .ok s2 =>
        match convertTypeNodeCore trueType s2 with
        | .error e => .error e
        | .ok s3 =>
          match convertTypeNodeCore falseType s3 with
          | .error e => .error e
          | .ok s4 => .ok (popScope 1 s4)
  | .indexedAccess objectType indexType, s =>
    match convertTypeNodeCore objectType s with
    | .error e => .error e
    | .ok s1 => convertTypeNodeCore indexType s1
  | .functionOrCtor sig, s => convertParametersAndType sig s
  | .typeQuery exprName, s => .ok (pushReference (convertEntityName exprName) s)
  | .restType ty, s => convertTypeNodeCore ty s
  | .optionalType ty, s => convertTypeNodeCore ty s
  | .templateLiteral spanTypes, s => convertTypeNodeList spanTypes s
  | .inferType paramName, s => .ok (pushTypeVariable paramName s)
  | .unsupportedType, _s => .error (.unsupported "convertTypeNode")
termination_by structural t _s => t

/-- Sequential conversion of a list of type nodes (the loops over
`typeArguments`, tuple elements, union/intersection members and template
spans). -/
def convertTypeNodeList : List TypeNode → St → Except Err St
  | [], s => .ok s
  | t :: ts, s =>
    match convertTypeNodeCore t s with
    | .error e => .error e
    | .ok s1 => convertTypeNodeList ts s1
termination_by structural l _s => l

/-- Model of `DeclarationScope.convertMembers`. -/
def convertMembers : List Member → St → Except Err St
  | [], s => .ok s
  | .propertyLike computedName ty :: rest, s =>
    match convertComputedPropertyName computedName s with
    | .error e => .error e
    | .ok s1 =>
      match convertTypeNode ty s1 with
      | .error e => .error e
      | .ok s2 => convertMembers rest s2
  | .methodLike sig :: rest, s =>
    match convertParametersAndType sig s with
    | .error e => .error e
    | .ok s1 => convertMembers rest s1
  | .unsupportedMember :: _rest, _s => .error (.unsupported "convertMembers")
termination_by structural l _s => l

/-- Model of `DeclarationScope.convertTypeParameters`: converts each
parameter's constraint and default, then pushes one scope binding the
parameter's name; the caller pops `params.length` scopes. -/
def convertTypeParameters : List TypeParamD → St → Except Err St
  | [], s => .ok s
  | .mk name constraint dflt :: rest, s =>
    match convertTypeNode constraint s with
    | .error e => .error e
    | .ok s1 =>
      match convertTypeNode dflt s1 with
      | .error e => .error e
      | .ok s2 => convertTypeParameters rest (pushTypeVariable name (pushScope s2))
termination_by structural l _s => l

/-- Model of `DeclarationScope.convertParametersAndType`. -/
def convertParametersAndType : Sig → St → Except Err St
  | .mk computedName typeParams params type, s =>
    match convertComputedPropertyName computedName s with
    | .error e => .error e
    | .ok s1 =>
      match convertTypeParameters typeParams s1 with
      | .error e => .error e
      | .ok s2 =>
        match convertParamTypes params s2 with
        | .error e => .error e
        | .ok s3 =>
          match convertTypeNode type s3 with
          | .error e => .error e
          | .ok s4 => .ok (popScope typeParams.length s4)
termination_by structural sig _s => sig

/-- The loop over `node.parameters` inside `convertParametersAndType`. -/
def convertParamTypes : List (Option TypeNode) → St → Except Err St
  | [], s => .ok s
  | ty :: rest, s =>
    match convertTypeNode ty s with
    | .error e => .error e
    | .ok s1 => convertParamTypes rest s1
termination_by structural l _s => l

/-- Model of `DeclarationScope.convertHeritageClauses` (the clause lists are
flattened: the source iterates all `types` of all clauses in order). -/
def convertHeritageClauses : List HeritageType → St → Except Err St
  | [], s => .ok s
  | .mk expr args :: rest, s =>
    match convertExpression expr with
    | .error e => .error e
    | .ok es =>
      match convertTypeNodeList args (pushReference es s) with
      | .error e => .error e
      | .ok s1 => convertHeritageClauses rest s1
termination_by structural l _s => l

/-- One step of the walking pass of `convertNamespace`.  The case for a
nested namespace inlines `convertNamespace`'s body (push a scope, hoist,
walk, pop — the standalone wrapper below is the function the transformer
calls). -/
def convertNamespaceStmt : NamespaceStmt → St → Except Err St
  | .varStmt decls, s => convertVarDeclTypes decls s
  | .funcDecl _ sig, s => convertParametersAndType sig s
  | .classOrInterfaceDecl _ typeParams heritage members, s =>
    match convertTypeParameters typeParams s with
    | .error e => .error e
    | .ok s1 =>
      match convertHeritageClauses heritage s1 with
      | .error e => .error e
      | .ok s2 =>
        match convertMembers members s2 with
        | .error e => .error e
        | .ok s3 => .ok (popScope typeParams.length s3)
  | .typeAliasDecl _ typeParams ty, s =>
    match convertTypeParameters typeParams s with
    | .error e => .error e
    | .ok s1 =>
      match convertTypeNodeCore ty s1 with
      | .error e => .error e
      | .ok s2 => .ok (popScope typeParams.length s2)
  | .moduleDecl _ stmts, s =>
    match hoistNamespaceStmts stmts (pushScope s) with
    | .error e => .error e
    | .ok s1 =>
      match convertNamespaceStmts stmts s1 with
      | .error e => .error e
      | .ok s2 => .ok (popScope 1 s2)
  | .moduleDeclNoBody _, _s => .error (.unsupported "namespace must have a ModuleBlock body")
  | .enumDecl _, s => .ok s
  | .exportDecl (some (.namespaceExport _)), _s => .error (.unsupported "namespace export")
  | .exportDecl (some (.named elems)), s =>
    .ok (elems.foldl (fun acc d => pushIdentifierReference (d.1.getD d.2) acc) s)
  | .exportDecl none, s => .ok s
  | .unsupportedStmt, _s => .error (.unsupported "namespace child (walking) not supported yet")
termination_by structural stmt _s => stmt

/-- The walking pass of `convertNamespace`. -/
def convertNamespaceStmts : List NamespaceStmt → St → Except Err St
  | [], s => .ok s
  | stmt :: rest, s =>
    match convertNamespaceStmt stmt s with
    | .error e => .error e
    | .ok s1 => convertNamespaceStmts rest s1
termination_by structural l _s => l

/-- The loop over variable declarations inside a namespace body: a
declaration without an explicit type is skipped. -/
def convertVarDeclTypes : List (String × Option TypeNode) → St → Except Err St
  | [], s => .ok s
  | (_, ty) :: rest, s =>
    match convertTypeNode ty s with
    | .error e => .error e
    | .ok s1 => convertVarDeclTypes rest s1
termination_by structural l _s => l
end

/-- Model of `DeclarationScope.convertNamespace`: push a scope, hoist all
member names, walk all members, pop the scope.  A missing or
non-`ModuleBlock` body is unsupported (checked after the push in the
source; the error aborts the walk either way). -/
def convertNamespace (body : Option (List NamespaceStmt)) (s : St) : Except Err St :=
  match body with
  | none => .error (.unsupported "namespace must have a ModuleBlock body")
  | some stmts =>
    match hoistNamespaceStmts stmts (pushScope s) with
    | .error e => .error e
    | .ok s1 =>
      match convertNamespaceStmts stmts s1 with
      | .error e => .error e
      | .ok s2 => .ok (popScope 1 s2)

/-! ### The Transformer

`Transformer` walks the canonicalized unit's top-level statements, producing
one ESTree body entry per statement: a `FunctionDeclaration` per named
declaration (merged by name), an IIFE per anonymous declaration, and plain
pass-through statements for imports/exports. -/

/-- The name of a module declaration: an identifier or a string literal
(`declare module "foo"`). -/
inductive ModuleName where
  | ident (name : String)
  | strLit (name : String)
deriving DecidableEq, Repr

/-- A top-level statement of the canonicalized declaration unit, as
dispatched by `Transformer.convertStatement`. -/
inductive TopStmt where
  | enumDecl (name : String)
  | funcDecl (name : Option String) (sig : Sig)
  | classOrInterfaceDecl (name : Option String) (typeParams : List TypeParamD)
      (heritage : List HeritageType) (members : List Member)
  | typeAliasDecl (name : String) (typeParams : List TypeParamD) (type : TypeNode)
  | varStmt (decls : List (String × Option TypeNode))
  | exportDecl (clause : Option ExportClause) (moduleSpecifier : Option Expr)
  | exportAssignment (expr : Expr)
  | moduleDecl (name : ModuleName) (body : Option (List NamespaceStmt))
      (isGlobalAugmentation : Bool)
  | namespaceExportDecl (name : String)
  | unsupportedTop

/-- The payload of one ESTree body entry produced by the transformer. -/
inductive BodyItem where
  | funcDecl (name : String) (params : List Ref)
  | iife (params : List Ref)
  | exportNamed (specifiers : List (String × String)) (source : Option ESExpr)
  | exportAllDecl (exported : Option String) (source : Option ESExpr)
  | exportDefaultDecl (declaration : ESExpr)
  | plainStmt (text : String)
deriving DecidableEq, Repr

/-- One entry of the ESTree program body, with its source range (`stop`
models the node's `end`). -/
structure BodyEntry where
  start : Nat
  stop : Nat
  item : BodyItem
deriving DecidableEq, Repr

/-- One entry of `Transformer.declarations`: the declaration's index in the
program body and the residual scope stack of its `DeclarationScope`. -/
structure DeclEntry where
  name : String
  idx : Nat
  scopes : List (List String)
deriving DecidableEq, Repr

/-- The transformer's state: the ESTree program body, the by-name
declaration map, and the global `IDs` counter. -/
structure TransSt where
  body : List BodyEntry
  decls : List DeclEntry
  counter : Nat
deriving DecidableEq, Repr

/-- Look up a declaration entry by name. -/
def lookupDecl (name : String) (decls : List DeclEntry) : Option DeclEntry :=
  decls.find? (fun d => d.name == name)

/-- The `params` of the body entry at `idx` (empty for non-declaration
entries; in real runs the index always points at a declaration). -/
def paramsAt (body : List BodyEntry) (idx : Nat) : List Ref :=
  match body.get? idx with
  | some e =>
    match e.item with
    | .funcDecl _ ps => ps
    | .iife ps => ps
    | _ => []
  | none => []

/-- A body entry with its declaration's `params` replaced (entries that are
not declarations are left alone; in real runs this never happens). -/
def withParams (e : BodyEntry) (ps : List Ref) : BodyEntry :=
  match e.item with
  | .funcDecl n _ => { e with item := .funcDecl n ps }
  | .iife _ => { e with item := .iife ps }
  | _ => e

/-- Replace the `params` of the body entry at `idx` (the assignment through
the aliased `declaration.params` array). -/
def setParamsAt : List BodyEntry → Nat → List Ref → List BodyEntry
  | [], _, _ => []
  | e :: rest, 0, ps => withParams e ps :: rest
  | e :: rest, i + 1, ps => e :: setParamsAt rest i ps

/-- Replace the `stop` of the body entry at `idx` (the
`existingScope.declaration.end = range.end` assignment). -/
def setStopAt : List BodyEntry → Nat → Nat → List BodyEntry
  | [], _, _ => []
  | e :: rest, 0, v => { e with stop := v } :: rest
  | e :: rest, i + 1, v => e :: setStopAt rest i v

/-- Set `start` and `stop` of every body entry strictly after `idx` to
`stop` (the loop after a declaration merge in
`Transformer.createDeclaration`); `i` is the index of the first entry of
the remaining list. -/
def bumpAfterGo (i idx stop : Nat) : List BodyEntry → List BodyEntry
  | [] => []
  | e :: rest =>
    (if idx < i then { e with start := stop, stop := stop } else e) ::
      bumpAfterGo (i + 1) idx stop rest

/-- Set `start` and `stop` of every body entry after `idx` to `stop`. -/
def bumpAfter (idx stop : Nat) (body : List BodyEntry) : List BodyEntry :=
  bumpAfterGo 0 idx stop body

/-- Store the residual scope stack for `name` back into the declaration
map. -/
def setScopesFor (name : String) (scopes : List (List String)) (decls : List DeclEntry) :
    List DeclEntry :=
  decls.map (fun d => if d.name == name then { d with scopes := scopes } else d)

/-- Model of `Transformer.createDeclaration(node, id?)`.  Returns the
updated state, the body index of the declaration to operate on, and the
scope stack of the `DeclarationScope` to use.  With no id an always-retained
IIFE entry is pushed; with an id, an existing same-name declaration is
merged: a reference to the declaration's own identifier is pushed into it,
its `end` is bumped to the new range's end (its `start` is left alone), and
every later body entry's `start`/`stop` are moved to the new end. -/
def Transformer.createDeclaration (t : TransSt) (range : Nat × Nat)
    (id : Option String) : TransSt × Nat × List (List String) :=
  match id with
  | none =>
    let idx := t.body.length
    ({ t with body := t.body ++ [{ start := range.1, stop := range.2, item := .iife [] }] },
      idx, [])
  | some name =>
    match lookupDecl name t.decls with
    | some entry =>
      let st0 : St := { scopes := entry.scopes, params := paramsAt t.body entry.idx,
                        counter := t.counter }
      let st1 := pushIdentifierReference name st0
      let body1 := setParamsAt t.body entry.idx st1.params
      let body2 := setStopAt body1 entry.idx range.2
      let body3 := bumpAfter entry.idx range.2 body2
      ({ body := body3, decls := t.decls, counter := st1.counter }, entry.idx, st1.scopes)
    | none =>
      let idx := t.body.length
      ({ body := t.body ++ [{ start := range.1, stop := range.2, item := .funcDecl name [] }],
         decls := t.decls ++ [{ name := name, idx := idx, scopes := [] }],
         counter := t.counter }, idx, [])

/-- Write a `DeclarationScope`'s state back into the transformer: its
`params` into its body entry, its scope stack into the declaration map (for
named declarations), and the advanced counter. -/
def Transformer.writeBack (t : TransSt) (idx : Nat) (name : Option String) (st : St) : TransSt :=
  { body := setParamsAt t.body idx st.params,
    decls := match name with
             | some n => setScopesFor n st.scopes t.decls
             | none => t.decls,
    counter := st.counter }

/-- Model of `Transformer.convertExportSpecifier`: `(local, exported)`. -/
def convertExportSpecifier (elem : Option String × String) : String × String :=
  (elem.1.getD elem.2, elem.2)

/-- Model of `Transformer.convertStatement`, covering the statement kinds of
the modelled subset (import declarations are not modelled). -/
def Transformer.convertStatement (t : TransSt) (stmt : TopStmt) (range : Nat × Nat) :
    Except Err TransSt :=
  match stmt with
  | .enumDecl name =>
    let (t1, idx, scopes) := Transformer.createDeclaration t range (some name)
    let st0 : St := { scopes := scopes, params := paramsAt t1.body idx, counter := t1.counter }
    let st1 := pushIdentifierReference name st0
    .ok (Transformer.writeBack t1 idx (some name) st1)
  | .funcDecl none _ => .error (.unsupported "FunctionDeclaration should have a name")
  | .funcDecl (some name) sig =>
    let (t1, idx, scopes) := Transformer.createDeclaration t range (some name)
    let st0 : St := { scopes := scopes, params := paramsAt t1.body idx, counter := t1.counter }
    let st1 := pushIdentifierReference name st0
    match convertParametersAndType sig st1 with
    | .error e => .error e
    | .ok st2 => .ok (Transformer.writeBack t1 idx (some name) st2)
  | .classOrInterfaceDecl none _ _ _ =>
    .error (.unsupported "ClassDeclaration / InterfaceDeclaration should have a name")
  | .classOrInterfaceDecl (some name) typeParams heritage members =>
    let (t1, idx, scopes) := Transformer.createDeclaration t range (some name)
    let st0 : St := { scopes := scopes, params := paramsAt t1.body idx, counter := t1.counter }
    match convertTypeParameters typeParams st0 with
    | .error e => .error e
    | .ok st1 =>
      match convertHeritageClauses heritage st1 with
      | .error e => .error e
      | .ok st2 =>
        match convertMembers members st2 with
        | .error e => .error e
        | .ok st3 =>
          .ok (Transformer.writeBack t1 idx (some name) (popScope typeParams.length st3))
  | .typeAliasDecl name typeParams ty =>
    let (t1, idx, scopes) := Transformer.createDeclaration t range (some name)
    let st0 : St := { scopes := scopes, params := paramsAt t1.body idx, counter := t1.counter }
    match convertTypeParameters typeParams st0 with
    | .error e => .error e
    | .ok st1 =>
      match convertTypeNodeCore ty st1 with
      | .error e => .error e
      | .ok st2 =>
        .ok (Transformer.writeBack t1 idx (some name) (popScope typeParams.length st2))
  | .varStmt decls =>
    match decls with
    | [(name, ty)] =>
      let (t1, idx, scopes) := Transformer.createDeclaration t range (some name)
      let st0 : St := { scopes := scopes, params := paramsAt t1.body idx, counter := t1.counter }
      match convertTypeNode ty st0 with
      | .error e => .error e
      | .ok st1 => .ok (Transformer.writeBack t1 idx (some name) st1)
    | _ => .error (.unsupported "VariableStatement with more than one declaration")
  | .exportAssignment expr =>
    match convertExpression expr with
    | .error e => .error e
    | .ok es =>
      .ok { t with body := t.body ++
        [{ start := range.1, stop := range.2, item := .exportDefaultDecl es }] }
  | .exportDecl clause moduleSpecifier =>
    let getSource : Except Err (Option ESExpr) :=
      match moduleSpecifier with
      | some e =>
        match convertExpression e with
        | .error err => .error err
        | .ok es => .ok (some es)
      | none => .ok none
    match getSource with
    | .error e => .error e
    | .ok source =>
      match clause with
      | none =>
        .ok { t with body := t.body ++
          [{ start := range.1, stop := range.2, item := .exportAllDecl none source }] }
      | some (.namespaceExport n) =>
        .ok { t with body := t.body ++
          [{ start := range.1, stop := range.2, item := .exportAllDecl (some n) source }] }
      | some (.named elems) =>
        .ok { t with body := t.body ++
          [{ start := range.1, stop := range.2,
             item := .exportNamed (elems.map convertExportSpecifier) source }] }
  | .moduleDecl name body isGlobalAugmentation =>
    match name, isGlobalAugmentation with
    | .ident n, false =>
      let (t1, idx, scopes) := Transformer.createDeclaration t range (some n)
      let st0 : St := { scopes := scopes, params := paramsAt t1.body idx, counter := t1.counter }
      let st1 := pushIdentifierReference n st0
      match convertNamespace body st1 with
      | .error e => .error e
      | .ok st2 => .ok (Transformer.writeBack t1 idx (some n) st2)
    | _, _ =>
      let (t1, idx, _) := Transformer.createDeclaration t range none
      let st0 : St := { scopes := [], params := paramsAt t1.body idx, counter := t1.counter }
      match convertNamespace body st0 with
      | .error e => .error e
      | .ok st1 => .ok (Transformer.writeBack t1 idx none st1)
  | .namespaceExportDecl _ =>
    .ok { t with body := t.body ++
      [{ start := range.1, stop := range.2, item := .plainStmt "pls remove me" }] }
  | .unsupportedTop => .error (.unsupported "convertStatement")

/-- Model of the `Transformer` constructor loop: convert every top-level
statement in order, starting from an empty program and the given global
counter. -/
def Transformer.run (stmts : List (TopStmt × Nat × Nat)) (counter : Nat) :
    Except Err TransSt :=
  go stmts { body := [], decls := [], counter := counter }
where
  go : List (TopStmt × Nat × Nat) → TransSt → Except Err TransSt
    | [], t => .ok t
    | (stmt, a, b) :: rest, t =>
      match Transformer.convertStatement t stmt (a, b) with
      | .error e => .error e
      | .ok t1 => go rest t1

/-! ### The Preprocessor

`preProcess` makes two passes over the top-level statements: pass 1 collects
declared/exported names and the default-export name and fixes modifiers;
pass 2 resolves inline `import()` types and names anonymous default exports.
Finalization appends synthetic export statements and prepends one
synthesized module-wide inline-import statement per deduplicated
specifier.  The model tracks the observable name sets and the appended and
prepended text; the in-place `MagicString` edits to the statement bodies
(modifier rewriting, splitting, reordering) only alter text between those
two ends and are not modelled. -/

/-- An AST node as seen by the recursive `checkInlineImport` walk: either an
`ImportTypeNode` (whose `arg` is the literal module specifier text, or
`none` when the argument is not a literal string) or any other node; both
carry their children. -/
inductive PNode where
  | importType (arg : Option String) (children : List PNode)
  | plain (children : List PNode)

/-- The declaration-like statement kinds of pass 1. -/
inductive PreKind where
  | enumK | funcK | interfaceK | classK | typeAliasK | moduleK
deriving DecidableEq, Repr

/-- A top-level statement as seen by the preprocessor.  `isExport` and
`isDefault` are the statement's combined modifier flags; the
`ExportDefault` modifier test requires both, the `Export` test only the
first. -/
inductive PreStmt where
  | emptyStmt
  | declLike (kind : PreKind) (name : Option String) (isExport : Bool) (isDefault : Bool)
      (isGlobalAugmentation : Bool) (nodes : List PNode)
  | varStmt (declNames : List String) (isExport : Bool) (nodes : List PNode)
  | otherStmt (nodes : List PNode)

/-- Insertion-ordered set add (JavaScript `Set.prototype.add`). -/
def listAdd (l : List String) (x : String) : List String :=
  if x ∈ l then l else l ++ [x]

/-- The accumulating result of pass 1. -/
structure Pass1Out where
  declared : List String
  exported : List String
  defaultExport : String
deriving DecidableEq, Repr

/-- Pass 1 of `preProcess`: collect declared names, exported names and the
default-export name (an unconditional assignment on every match). -/
def preProcessPass1 : List PreStmt → Pass1Out → Pass1Out
  | [], acc => acc
  | stmt :: rest, acc =>
    match stmt with
    | .emptyStmt => preProcessPass1 rest acc
    | .declLike _ name isExport isDefault _ _ =>
      match name with
      | some n =>
        let acc1 := { acc with declared := listAdd acc.declared n }
        let acc2 :=
          if isExport && isDefault then { acc1 with defaultExport := n }
          else if isExport then { acc1 with exported := listAdd acc1.exported n }
          else acc1
        preProcessPass1 rest acc2
      | none => preProcessPass1 rest acc
    | .varStmt declNames isExport _ =>
      let acc1 := declNames.foldl (fun a n =>
        let a1 := { a with declared := listAdd a.declared n }
        if isExport then { a1 with exported := listAdd a1.exported n } else a1) acc
      preProcessPass1 rest acc1
    | .otherStmt _ => preProcessPass1 rest acc

/-- A character JavaScript's `/[^a-zA-Z0-9_$]/` does not match. -/
def isIdentChar (c : Char) : Bool :=
  ('a' ≤ c && c ≤ 'z') || ('A' ≤ c && c ≤ 'Z') || ('0' ≤ c && c ≤ '9') || c = '_' || c = '$'

/-- Model of `fileId.replace(/[^a-zA-Z0-9_$]/g, () => "_")`. -/
def sanitizeFileId (s : String) : String :=
  String.map (fun c => if isIdentChar c then c else '_') s

/-- The mutable state of pass 2: the declared-name set (extended by
`uniqName`) and the specifier-to-synthesized-name map of inline imports. -/
structure Pass2St where
  declared : List String
  inlineImports : List (String × String)
deriving DecidableEq, Repr

/-- Model of `createNamespaceImport(fileId)`: reuse the synthesized name for
a repeated specifier, otherwise synthesize one with `uniqName`. -/
def createNamespaceImport (fileId : String) (st : Pass2St) : String × Pass2St :=
  match st.inlineImports.find? (fun p => p.1 == fileId) with
  | some p => (p.2, st)
  | none =>
    let (importName, declared1) := uniqName st.declared (sanitizeFileId fileId)
    (importName, { declared := declared1,
                   inlineImports := st.inlineImports ++ [(fileId, importName)] })

mutual
/-- Model of `checkInlineImport(node)`: recurse into all children first,
then, if the node is an inline `import()` type, require a literal string
argument and rewrite it to a synthesized namespace import. -/
def checkInlineImport : PNode → Pass2St → Except Err Pass2St
  | node, st =>
    match node with
    | .importType arg children =>
      match checkInlineImportList children st with
      | .error e => .error e
      | .ok st1 =>
        match arg with
        | none => .error (.unsupported "inline imports should have a literal argument")
        | some fileId =>
          let (_, st2) := createNamespaceImport fileId st1
          .ok st2
    | .plain children => checkInlineImportList children st
termination_by structural n _s => n

/-- The `ts.forEachChild` loop of `checkInlineImport`. -/
def checkInlineImportList : List PNode → Pass2St → Except Err Pass2St
  | [], st => .ok st
  | n :: ns, st =>
    match checkInlineImport n st with
    | .error e => .error e
    | .ok st1 => checkInlineImportList ns st1
termination_by structural l _s => l
end

/-- The child nodes of a preprocessor statement. -/
def PreStmt.nodes : PreStmt → List PNode
  | .emptyStmt => []
  | .declLike _ _ _ _ _ ns => ns
  | .varStmt _ _ ns => ns
  | .otherStmt ns => ns

/-- The state carried through pass 2. -/
structure Pass2Out where
  declared : List String
  inlineImports : List (String × String)
  defaultExport : String
deriving DecidableEq, Repr

/-- Pass 2 of `preProcess`: check inline imports recursively in every
statement, and give a name-less default-exported function or class a
synthesized name (only when no default-export name exists yet). -/
def preProcessPass2 : List PreStmt → Pass2Out → Except Err Pass2Out
  | [], acc => .ok acc
  | stmt :: rest, acc =>
    match checkInlineImportList stmt.nodes
        { declared := acc.declared, inlineImports := acc.inlineImports } with
    | .error e => .error e
    | .ok st1 =>
      let acc1 : Pass2Out :=
        { acc with declared := st1.declared, inlineImports := st1.inlineImports }
      match stmt with
      | .declLike kind none true true _ _ =>
        if kind = .funcK || kind = .classK then
          if acc1.defaultExport = "" then
            let (name, declared1) := uniqName acc1.declared "export_default"
            preProcessPass2 rest { acc1 with declared := declared1, defaultExport := name }
          else preProcessPass2 rest acc1
        else preProcessPass2 rest acc1
      | _ => preProcessPass2 rest acc1

/-- The observable result of `preProcess`: the collected name sets, the text
appended after the unit's body, the text prepended before it, and the
stripped type-reference directives. -/
structure PreOut where
  declared : List String
  exported : List String
  defaultExport : String
  inlineImports : List (String × String)
  appended : String
  prepended : String
  typeReferences : List String
deriving DecidableEq, Repr

/-- The synthetic statements appended at the end of the rewritten text. -/
def renderAppended (defaultExport : String) (exported : List String) : String :=
  (if defaultExport ≠ "" then "\nexport default " ++ defaultExport ++ ";\n" else "") ++
    (if exported ≠ [] then "\nexport \x7b " ++ String.intercalate ", " exported ++ " \x7d;\n"
     else "")

/-- The synthesized import statements prepended before the rewritten text;
each `prepend` call puts its line in front of the previous ones, so the
final order is the reverse of the map's insertion order. -/
def renderPrepended (inlineImports : List (String × String)) : String :=
  String.join ((inlineImports.map
    (fun p => "import * as " ++ p.2 ++ " from \"" ++ p.1 ++ "\";\n")).reverse)

/-- Model of `preProcess`: pass 1, pass 2, then finalization. -/
def preProcess (stmts : List PreStmt) (typeRefs : List String) : Except Err PreOut :=
  let p1 := preProcessPass1 stmts { declared := [], exported := [], defaultExport := "" }
  match preProcessPass2 stmts
      { declared := p1.declared, inlineImports := [], defaultExport := p1.defaultExport } with
  | .error e => .error e
  | .ok p2 =>
    .ok { declared := p2.declared,
          exported := p1.exported,
          defaultExport := p2.defaultExport,
          inlineImports := p2.inlineImports,
          appended := renderAppended p2.defaultExport p1.exported,
          prepended := renderPrepended p2.inlineImports,
          typeReferences := typeRefs.foldl listAdd [] }

/-! ### The Namespace Reconstructor

`NamespaceFixer` re-parses a finished chunk, recognizes the frozen-object
namespace markers, and splices namespace blocks back in.  The model covers
the parsing of a marker's object-literal properties (the loop inside
`findNamespaces`) and the rewriting loop of `fix`, which consumes
`findNamespaces`' outputs. -/

/-- The key of an object-literal property. -/
inductive PropKey where
  | identKey (name : String)
  | otherKey
deriving DecidableEq, Repr

/-- The initializer of a property assignment. -/
inductive InitKind where
  | identInit (name : String)
  | otherInit
deriving DecidableEq, Repr

/-- An object-literal property: a `PropertyAssignment`, or any other
property shape (shorthand property, spread, method, accessor). -/
inductive ObjProp where
  | propAssign (key : PropKey) (init : InitKind)
  | otherProp (key : PropKey)
deriving DecidableEq, Repr

/-- Model of the export-collection loop inside
`NamespaceFixer.findNamespaces`: a property must be a property assignment
with an identifier key, and (unless the key is `__proto__`) an identifier
initializer; `__proto__` entries are skipped. -/
def parseFrozenExports : List ObjProp → Except Err (List (String × String))
  | [] => .ok []
  | prop :: rest =>
    match prop with
    | .propAssign (.identKey k) init =>
      if k = "__proto__" then parseFrozenExports rest
      else
        match init with
        | .identInit v =>
          match parseFrozenExports rest with
          | .error e => .error e
          | .ok es => .ok ((k, v) :: es)
        | .otherInit => .error (.unsupported "Expected a property assignment")
    | _ => .error (.unsupported "Expected a property assignment")

/-- The item kinds tracked by `findNamespaces` for the surviving top-level
declarations of a chunk. -/
inductive ItemKind where
  | classK | funcK | interfaceK | typeK | namespaceK | enumK | varK
deriving DecidableEq, Repr

/-- One tracked top-level item: its kind and generic arity (0 when the
declaration has no type parameters). -/
structure Item where
  kind : ItemKind
  generics : Nat
deriving DecidableEq, Repr

/-- A namespace record recovered from a marker: the namespace's name (empty
for boundary-only markers), its `(exportedName, localName)` pairs, and the
marker's source range. -/
structure NsRecord where
  name : String
  exports : List (String × String)
  start : Nat
  stop : Nat
deriving DecidableEq, Repr

/-- Model of `renderTypeParams(num)`. -/
def renderTypeParams (num : Nat) : String :=
  if num = 0 then ""
  else "<" ++ String.intercalate ", " ((List.range num).map (fun i => "_" ++ natToString i)) ++ ">"

/-- The forwarding alias statements generated for the self-aliased exports
of one namespace record.  Looking up a local name that is no longer tracked
models the JavaScript `TypeError` thrown by destructuring `undefined`;
aliased entries (`exportedName ≠ localName`) generate nothing here and are
never looked up. -/
def renderSelfAliases (nsName : String) (exports : List (String × String))
    (items : List (String × Item)) : Except Err String :=
  match exports with
  | [] => .ok ""
  | (exportedName, localName) :: rest =>
    let head : Except Err String :=
      if exportedName = localName then
        match items.find? (fun p => p.1 == localName) with
        | none => .error (.typeError "cannot destructure undefined")
        | some (_, item) =>
          let typeParams := renderTypeParams item.generics
          match item.kind with
          | .interfaceK | .typeK =>
            .ok ("type " ++ nsName ++ "_" ++ exportedName ++ typeParams ++ " = " ++
              localName ++ typeParams ++ ";\n")
          | .enumK | .classK =>
            .ok ("type " ++ nsName ++ "_" ++ exportedName ++ typeParams ++ " = " ++
              localName ++ typeParams ++ ";\n" ++
              "declare const " ++ nsName ++ "_" ++ exportedName ++ ": typeof " ++
              localName ++ ";\n")
          | _ =>
            .ok ("declare const " ++ nsName ++ "_" ++ exportedName ++ ": typeof " ++
              localName ++ ";\n")
      else .ok ""
    match head with
    | .error e => .error e
    | .ok h =>
      match renderSelfAliases nsName rest items with
      | .error e => .error e
      | .ok t => .ok (h ++ t)

/-- The export lines of the regenerated namespace block: self-aliased
entries go through the forwarding alias, aliased entries reference the
(possibly stale) local name directly. -/
def renderExportLines (nsName : String) (exports : List (String × String)) : String :=
  String.join (exports.map (fun p =>
    if p.1 = p.2 then "    " ++ nsName ++ "_" ++ p.1 ++ " as " ++ p.1 ++ ",\n"
    else "    " ++ p.2 ++ " as " ++ p.1 ++ ",\n"))

/-- Model of `NamespaceFixer.fix()`: for each namespace record (already in
reverse document order), splice in the forwarding aliases and, for named
namespaces, the regenerated namespace block. -/
def NamespaceFixer.fix (namespaces : List NsRecord) (items : List (String × Item))
    (code : String) : Except Err String :=
  match namespaces with
  | [] => .ok code
  | ns :: rest =>
    let codeAfter := String.mk (code.data.drop ns.stop)
    let codeStart := String.mk (code.data.take ns.start)
    match renderSelfAliases ns.name ns.exports items with
    | .error e => .error e
    | .ok aliases =>
      let block :=
        if ns.name ≠ "" then
          "declare namespace " ++ ns.name ++ " \x7b\n" ++ "  export \x7b\n" ++
            renderExportLines ns.name ns.exports ++ "  \x7d;\n\x7d"
        else ""
      NamespaceFixer.fix rest items (codeStart ++ aliases ++ block ++ codeAfter)

/-! ## Theorems -/

/-! ### uniqName (claim C8) -/

theorem underscored_zero (hint : String) : underscored 0 hint = hint := by
  cases hint
  rfl

theorem underscored_succ (k : Nat) (hint : String) :
    "_" ++ underscored k hint = underscored (k + 1) hint := by
  simp only [underscored]
  apply congrArg String.mk
  rfl

theorem underscored_length (k : Nat) (hint : String) :
    (underscored k hint).length = k + hint.length := by
  cases hint with
  | mk data =>
    show (String.mk (List.replicate k '_' ++ data)).length = _
    simp [String.length]

/-- Some underscore-prefixed candidate avoids the (finite) declared set: the
`declared.length + 1` candidates are pairwise distinct, having distinct
lengths. -/
theorem exists_underscored_not_mem (declared : List String) (hint : String) :
    ∃ k, k ≤ declared.length ∧ underscored k hint ∉ declared := by
  by_contra hcon
  push_neg at hcon
  have hinj : Function.Injective (fun i : Fin (declared.length + 1) => underscored i.1 hint) := by
    intro a b hab
    have := congrArg String.length hab
    simp only [underscored_length] at this
    exact Fin.ext (by omega)
  have hsub : (Finset.univ.image (fun i : Fin (declared.length + 1) => underscored i.1 hint)) ⊆
      declared.toFinset := by
    intro x hx
    simp only [Finset.mem_image] at hx
    obtain ⟨i, _, rfl⟩ := hx
    exact List.mem_toFinset.2 (hcon i.1 (by omega))
  have hcard := Finset.card_le_card hsub
  rw [Finset.card_image_of_injective _ hinj, Finset.card_univ, Fintype.card_fin] at hcard
  have := declared.toFinset_card_le
  omega

/-- The while-loop reaches exactly the least non-colliding candidate when
given enough fuel. -/
theorem uniqNameGo_spec (declared : List String) (hint : String) (L : Nat)
    (hnot : underscored L hint ∉ declared) (hall : ∀ i, i < L → underscored i hint ∈ declared) :
    ∀ fuel j, j ≤ L → L - j ≤ fuel →
      uniqNameGo declared fuel (underscored j hint) = underscored L hint := by
  intro fuel
  induction fuel with
  | zero =>
    intro j hj hf
    have hje : j = L := by omega
    subst hje
    rfl
  | succ n ih =>
    intro j hj hf
    by_cases hmem : underscored j hint ∈ declared
    · have hjne : j ≠ L := by
        intro hje
        exact hnot (hje ▸ hmem)
      rw [uniqNameGo, if_pos hmem, underscored_succ]
      exact ih (j + 1) (by omega) (by omega)
    · have hje : j = L := by
        by_contra hne
        exact hmem (hall j (by omega))
      subst hje
      rw [uniqNameGo, if_neg hmem]

/-- C8: `uniqName` returns the hint prefixed with the least number of
underscores (possibly zero) that avoids every name in the declared-name
set, and appends the result to that set — hence every synthesized name is
distinct from all declared names and from every previously synthesized name
(which is in the set by then). -/
theorem claim_C8_uniqName (declared : List String) (hint : String) :
    ∃ k, (uniqName declared hint).1 = underscored k hint ∧
      underscored k hint ∉ declared ∧
      (∀ j, j < k → underscored j hint ∈ declared) ∧
      (uniqName declared hint).2 = declared ++ [(uniqName declared hint).1] := by
  obtain ⟨k0, hk0le, hk0⟩ := exists_underscored_not_mem declared hint
  have hex : ∃ k, underscored k hint ∉ declared := ⟨k0, hk0⟩
  refine ⟨Nat.find hex, ?_, Nat.find_spec hex, ?_, rfl⟩
  · show uniqNameGo declared (declared.length + 1) hint = _
    have h0 := uniqNameGo_spec declared hint (Nat.find hex) (Nat.find_spec hex)
      (fun i hi => by
        have := Nat.find_min hex hi
        simpa using this)
      (declared.length + 1) 0 (by omega)
      (by have := Nat.find_min' hex hk0; omega)
    rwa [underscored_zero] at h0
  · intro j hj
    have := Nat.find_min hex hj
    simpa using this

/-- Closed instance of `claim_C8_uniqName`: with `declared = ["a", "_a"]`
and hint `"a"`, the synthesized name is `"__a"` (two underscores, the least
that avoids the set), and it is recorded. -/
theorem claim_C8_uniqName_witness :
    ∃ k, (uniqName ["a", "_a"] "a").1 = underscored k "a" ∧
      underscored k "a" ∉ ["a", "_a"] ∧
      (∀ j, j < k → underscored j "a" ∈ ["a", "_a"]) ∧
      (uniqName ["a", "_a"] "a").2 = ["a", "_a"] ++ [(uniqName ["a", "_a"] "a").1] :=
  claim_C8_uniqName ["a", "_a"] "a"

/-! ### createReference freshness (claim C9) -/

/-- C9: the reference generator's counter strictly increases on every call,
and any two creations at distinct counter values produce distinct synthetic
left-hand identifier names — even for the same target. -/
theorem claim_C9_createReference :
    (∀ (id : ESExpr) (c : Nat), (createReference id c).2 = c + 1) ∧
    (∀ (id1 id2 : ESExpr) (c1 c2 : Nat), c1 ≠ c2 →
      (createReference id1 c1).1.left ≠ (createReference id2 c2).1.left) := by
  refine ⟨fun _ _ => rfl, fun id1 id2 c1 c2 hne heq => hne (natToString_inj heq)⟩

/-- Closed instance of `claim_C9_createReference`: two successive creations
targeting the same identifier get distinct synthetic names. -/
theorem claim_C9_createReference_witness :
    (1 : Nat) ≠ 2 ∧
      (createReference (.ident "T") 1).1.left ≠ (createReference (.ident "T") 2).1.left :=
  ⟨by decide, claim_C9_createReference.2 (.ident "T") (.ident "T") 1 2 (by decide)⟩

/-! ### Frozen-object property parsing (claim C10) -/

/-- Whether the property loop of `findNamespaces` accepts this property. -/
def goodProp : ObjProp → Bool
  | .propAssign (.identKey k) init =>
    if k = "__proto__" then true
    else
      match init with
      | .identInit _ => true
      | .otherInit => false
  | _ => false

/-- The export entry a property contributes (none for `__proto__`). -/
def propEntry : ObjProp → Option (String × String)
  | .propAssign (.identKey k) (.identInit v) =>
    if k = "__proto__" then none else some (k, v)
  | _ => none

/-- C10 counterexample: a property whose key is the identifier `__proto__`
but which is not a `PropertyAssignment` (e.g. a shorthand property) raises
the unsupported-construct error instead of being skipped. -/
theorem claim_C10_counterexample :
    parseFrozenExports [ObjProp.otherProp (.identKey "__proto__")] =
      .error (.unsupported "Expected a property assignment") := rfl

/-- C10 (amended): only identifier-keyed property *assignments* with key
`__proto__` are skipped without contributing an entry and without error;
every property that is not an identifier-keyed property assignment — even
one keyed `__proto__` — and every non-`__proto__` assignment whose
initializer is not a plain identifier raises the unsupported-construct
error. -/
theorem claim_C10_amended (props : List ObjProp) :
    (props.all goodProp = true → parseFrozenExports props = .ok (props.filterMap propEntry)) ∧
    (props.all goodProp = false →
      parseFrozenExports props = .error (.unsupported "Expected a property assignment")) := by
  induction props with
  | nil => exact ⟨fun _ => rfl, fun h => by simp at h⟩
  | cons p rest ih =>
    constructor
    · intro h
      simp only [List.all_cons, Bool.and_eq_true] at h
      obtain ⟨hp, hrest⟩ := h
      match p with
      | .propAssign (.identKey k) init =>
        by_cases hk : k = "__proto__"
        · subst hk
          have hnone : propEntry (ObjProp.propAssign (.identKey "__proto__") init) = none := by
            cases init <;> simp [propEntry]
          simp [parseFrozenExports, hnone, ih.1 hrest]
        · match init with
          | .identInit v =>
            simp [parseFrozenExports, if_neg hk, ih.1 hrest, propEntry, hk]
          | .otherInit => simp [goodProp, if_neg hk] at hp
      | .propAssign .otherKey init => simp [goodProp] at hp
      | .otherProp key => simp [goodProp] at hp
    · intro h
      simp only [List.all_cons, Bool.and_eq_false_iff] at h
      match p with
      | .propAssign (.identKey k) init =>
        by_cases hk : k = "__proto__"
        · subst hk
          have hrest : rest.all goodProp = false := by
            rcases h with h | h
            · simp [goodProp] at h
            · exact h
          simp [parseFrozenExports, ih.2 hrest]
        · match init with
          | .identInit v =>
            have hrest : rest.all goodProp = false := by
              rcases h with h | h
              · simp [goodProp, if_neg hk] at h
              · exact h
            simp [parseFrozenExports, if_neg hk, ih.2 hrest]
          | .otherInit => simp [parseFrozenExports, if_neg hk]
      | .propAssign .otherKey init => rfl
      | .otherProp key => rfl

/-- Closed instance of `claim_C10_amended`: a well-formed property list
with a `__proto__` assignment parses to the non-`__proto__` entries. -/
theorem claim_C10_amended_witness :
    parseFrozenExports
        [ObjProp.propAssign (.identKey "__proto__") .otherInit,
         ObjProp.propAssign (.identKey "a") (.identInit "b")] =
      .ok [("a", "b")] :=
  (claim_C10_amended _).1 (by decide)

/-! ### Namespace reconstruction integrity (claim C6) -/

/-- A namespace-record entry that will crash `fix`: self-aliased, with a
local name that is no longer among the tracked items. -/
def brokenEntry (items : List (String × Item)) (p : String × String) : Bool :=
  p.1 == p.2 && (items.find? (fun q => q.1 == p.2)).isNone

/-- Whether any namespace record has a broken self-aliased entry. -/
def hasBrokenSelfAlias (namespaces : List NsRecord) (items : List (String × Item)) : Bool :=
  namespaces.any (fun ns => ns.exports.any (brokenEntry items))

theorem renderSelfAliases_error_iff (nsName : String) (items : List (String × Item)) :
    ∀ exports : List (String × String),
      (∃ e, renderSelfAliases nsName exports items = .error e) ↔
        exports.any (brokenEntry items) = true := by
  intro exports
  induction exports with
  | nil => simp [renderSelfAliases]
  | cons p rest ih =>
    obtain ⟨en, ln⟩ := p
    by_cases hal : en = ln
    · subst hal
      cases hfind : items.find? (fun q => q.1 == en) with
      | none =>
        constructor
        · intro _
          simp [List.any_cons, brokenEntry, hfind]
        · intro _
          exact ⟨.typeError "cannot destructure undefined", by
            simp [renderSelfAliases, hfind]⟩
      | some q =>
        obtain ⟨nm, item⟩ := q
        obtain ⟨kind, gen⟩ := item
        have hbe : brokenEntry items (en, en) = false := by
          simp [brokenEntry, hfind]
        cases hrest : renderSelfAliases nsName rest items with
        | error e =>
          have hany : rest.any (brokenEntry items) = true := ih.1 ⟨e, hrest⟩
          simp only [List.any_cons, hbe, Bool.false_or, hany, iff_true]
          refine ⟨e, ?_⟩
          cases kind <;> simp [renderSelfAliases, hfind, hrest]
        | ok t =>
          have hany : rest.any (brokenEntry items) = false := by
            cases hany : rest.any (brokenEntry items) with
            | false => rfl
            | true =>
              obtain ⟨e, he⟩ := ih.2 hany
              rw [hrest] at he
              exact absurd he (by simp)
          simp only [List.any_cons, hbe, Bool.false_or, hany, Bool.false_eq_true, iff_false]
          intro ⟨e, he⟩
          revert he
          cases kind <;> simp [renderSelfAliases, hfind, hrest]
    · have hbe : brokenEntry items (en, ln) = false := by
        simp [brokenEntry, hal]
      have hh : renderSelfAliases nsName ((en, ln) :: rest) items =
          (match renderSelfAliases nsName rest items with
           | .error e => .error e
           | .ok t => .ok ("" ++ t)) := by
        simp [renderSelfAliases, hal]
      rw [hh]
      cases hrest : renderSelfAliases nsName rest items with
      | error e =>
        simp only [List.any_cons, hbe, Bool.false_or]
        exact Iff.trans ⟨fun _ => ⟨e, hrest⟩, fun _ => ⟨e, rfl⟩⟩ ih
      | ok t =>
        simp only [List.any_cons, hbe, Bool.false_or]
        rw [← ih, hrest]
        constructor
        · intro ⟨e, he⟩
          exact absurd he (by simp)
        · intro ⟨e, he⟩
          exact absurd he (by simp)

/-- C6 counterexample: a namespace record whose only entry is aliased
(`exportedName ≠ localName`) and whose local name is tracked nowhere does
NOT fail: `fix` silently emits `localY as y` inside the regenerated
namespace block. -/
theorem claim_C6_counterexample :
    NamespaceFixer.fix [{ name := "ns", exports := [("y", "localY")], start := 10, stop := 20 }]
        [] "0123456789MARKERXXXXtail" =
      .ok "0123456789declare namespace ns \x7b\n  export \x7b\n    localY as y,\n  \x7d;\n\x7dtail" := by
  rfl

/-- C6 (amended): during namespace reconstruction, `fix` fails loudly if and
only if some namespace record has a *self-aliased* entry whose local name is
no longer tracked (the lookup destructures `undefined`); aliased entries are
rendered without any lookup and hence silently, even when their local name
is gone. -/
theorem claim_C6_amended (namespaces : List NsRecord) (items : List (String × Item))
    (code : String) :
    (∃ e, NamespaceFixer.fix namespaces items code = .error e) ↔
      hasBrokenSelfAlias namespaces items = true := by
  induction namespaces generalizing code with
  | nil => simp [NamespaceFixer.fix, hasBrokenSelfAlias]
  | cons ns rest ih =>
    rw [NamespaceFixer.fix]
    cases hra : renderSelfAliases ns.name ns.exports items with
    | error e =>
      have hbroken : ns.exports.any (brokenEntry items) = true :=
        (renderSelfAliases_error_iff ns.name items ns.exports).1 ⟨e, hra⟩
      simp [hasBrokenSelfAlias, hbroken]
    | ok aliases =>
      have hok : ns.exports.any (brokenEntry items) = false := by
        by_contra hne
        obtain ⟨e, he⟩ := (renderSelfAliases_error_iff ns.name items ns.exports).2
          (by revert hne; cases ns.exports.any (brokenEntry items) <;> simp)
        rw [hra] at he
        exact absurd he (by simp)
      rw [show hasBrokenSelfAlias (ns :: rest) items =
        (ns.exports.any (brokenEntry items) || hasBrokenSelfAlias rest items) from by
          simp [hasBrokenSelfAlias]]
      rw [hok, Bool.false_or]
      exact ih _

/-! ### Default-export name recording (claim C4) -/

/-- The declared name of a statement when it is declaration-like, named,
and carries the export-default modifier. -/
def stmtNamedDefault : PreStmt → Option String
  | .declLike _ (some n) isExport isDefault _ _ =>
    if isExport && isDefault then some n else none
  | _ => none

/-- The name of the *last* top-level statement that is declaration-like,
named, and carries the export-default modifier. -/
def lastNamedDefault : List PreStmt → Option String
  | [] => none
  | stmt :: rest =>
    match lastNamedDefault rest with
    | some n => some n
    | none => stmtNamedDefault stmt

theorem varStmt_foldl_defaultExport (declNames : List String) (isExport : Bool) :
    ∀ acc : Pass1Out,
      (declNames.foldl (fun a n =>
        let a1 := { a with declared := listAdd a.declared n }
        if isExport then { a1 with exported := listAdd a1.exported n } else a1) acc).defaultExport =
      acc.defaultExport := by
  induction declNames with
  | nil => intro acc; rfl
  | cons n rest ih =>
    intro acc
    rw [List.foldl_cons, ih]
    cases isExport <;> rfl

theorem pass1_default_last_writer (stmts : List PreStmt) :
    ∀ acc : Pass1Out,
      (preProcessPass1 stmts acc).defaultExport =
        match lastNamedDefault stmts with
        | some n => n
        | none => acc.defaultExport := by
  induction stmts with
  | nil => intro acc; rfl
  | cons stmt rest ih =>
    intro acc
    match stmt with
    | .emptyStmt =>
      rw [preProcessPass1, ih, lastNamedDefault]
      cases lastNamedDefault rest <;> simp [stmtNamedDefault]
    | .otherStmt nodes =>
      rw [preProcessPass1, ih, lastNamedDefault]
      cases lastNamedDefault rest <;> simp [stmtNamedDefault]
    | .varStmt declNames isExport nodes =>
      rw [preProcessPass1, ih, varStmt_foldl_defaultExport, lastNamedDefault]
      cases lastNamedDefault rest <;> simp [stmtNamedDefault]
    | .declLike kind name isExport isDefault ga nodes =>
      match name with
      | none =>
        rw [preProcessPass1, ih, lastNamedDefault]
        cases lastNamedDefault rest <;> simp [stmtNamedDefault]
      | some n =>
        rw [preProcessPass1, ih, lastNamedDefault]
        cases hl : lastNamedDefault rest with
        | some m => cases isExport <;> cases isDefault <;> simp
        | none => cases isExport <;> cases isDefault <;> simp [stmtNamedDefault]

/-- C4 counterexample: two top-level statements both named and carrying the
export-default modifier (`A` first, `B` second); the recorded default-export
name is `B`, the *last* writer, not the first. -/
theorem claim_C4_counterexample :
    preProcess [PreStmt.declLike .funcK (some "A") true true false [],
                PreStmt.declLike .classK (some "B") true true false []] [] =
      .ok { declared := ["A", "B"], exported := [], defaultExport := "B", inlineImports := [],
            appended := "\nexport default B;\n", prepended := "", typeReferences := [] } := by
  decide

theorem if_neg_result {c : Prop} [Decidable c] {α : Type} (hnc : ¬c) {a b r : α}
    (h : (if c then a else b) = r) : b = r := by
  rw [if_neg hnc] at h
  exact h

/-- C4 (amended): when several top-level statements each carry the
export-default modifier and a name, the *last* such statement's name is
recorded (pass 1 overwrites the slot on every match), and pass 2 never
overrides a nonempty default-export name. -/
theorem claim_C4_amended :
    (∀ (stmts : List PreStmt) (acc : Pass1Out),
      (preProcessPass1 stmts acc).defaultExport =
        match lastNamedDefault stmts with
        | some n => n
        | none => acc.defaultExport) ∧
    (∀ (stmts : List PreStmt) (acc : Pass2Out) (out : Pass2Out),
      acc.defaultExport ≠ "" → preProcessPass2 stmts acc = .ok out →
        out.defaultExport = acc.defaultExport) := by
  constructor
  · exact fun stmts => pass1_default_last_writer stmts
  · intro stmts
    induction stmts with
    | nil =>
      intro acc out _ h
      cases h
      rfl
    | cons stmt rest ih =>
      intro acc out hne h
      rw [preProcessPass2] at h
      revert h
      cases hc : checkInlineImportList stmt.nodes
          { declared := acc.declared, inlineImports := acc.inlineImports } with
      | error e => intro h; cases h
      | ok st1 =>
        intro h
        have step : ∀ out2,
            preProcessPass2 rest (⟨st1.declared, st1.inlineImports, acc.defaultExport⟩ : Pass2Out) =
                .ok out2 →
              out2.defaultExport = acc.defaultExport := fun out2 h2 =>
          ih ⟨st1.declared, st1.inlineImports, acc.defaultExport⟩ out2 hne h2
        match stmt with
        | .emptyStmt => exact step out h
        | .otherStmt _ => exact step out h
        | .varStmt _ _ _ => exact step out h
        | .declLike kind name isExport isDefault ga nodes =>
          match kind, name, isExport, isDefault with
          | .funcK, none, true, true => exact step out (if_neg_result hne h)
          | .classK, none, true, true => exact step out (if_neg_result hne h)
          | .enumK, none, true, true => exact step out h
          | .interfaceK, none, true, true => exact step out h
          | .typeAliasK, none, true, true => exact step out h
          | .moduleK, none, true, true => exact step out h
          | _, some n, _, _ => exact step out h
          | _, none, false, false => exact step out h
          | _, none, false, true => exact step out h
          | _, none, true, false => exact step out h

/-- Closed instance of `claim_C4_amended`: an empty pass 2 preserves a
nonempty default-export name. -/
theorem claim_C4_amended_witness :
    ({ declared := [], inlineImports := [], defaultExport := "d" } : Pass2Out).defaultExport ≠ "" ∧
      (⟨[], [], "d"⟩ : Pass2Out).defaultExport = (⟨[], [], "d"⟩ : Pass2Out).defaultExport :=
  ⟨by decide, claim_C4_amended.2 [] ⟨[], [], "d"⟩ ⟨[], [], "d"⟩ (by decide) rfl⟩

/-! ### Inline-import rewriting (claim C7) -/

mutual
/-- Whether the subtree rooted at this node contains an inline `import()`
type whose argument is not a literal string. -/
def PNode.hasBadImport : PNode → Bool
  | .importType arg children => arg.isNone || PNode.listHasBadImport children
  | .plain children => PNode.listHasBadImport children
termination_by structural n => n

/-- `hasBadImport` over a list of nodes. -/
def PNode.listHasBadImport : List PNode → Bool
  | [] => false
  | n :: ns => PNode.hasBadImport n || PNode.listHasBadImport ns
termination_by structural l => l
end

mutual
theorem checkInlineImport_error_iff (n : PNode) : ∀ st : Pass2St,
    (∃ e, checkInlineImport n st = .error e) ↔ PNode.hasBadImport n = true := by
  match n with
  | .importType arg children =>
    intro st
    rw [checkInlineImport, PNode.hasBadImport]
    cases hcl : checkInlineImportList children st with
    | error e =>
      have hc : PNode.listHasBadImport children = true :=
        (checkInlineImportList_error_iff children st).1 ⟨e, hcl⟩
      simp [hc]
    | ok st1 =>
      have hc : PNode.listHasBadImport children = false := by
        cases hx : PNode.listHasBadImport children with
        | false => rfl
        | true =>
          obtain ⟨e, he⟩ := (checkInlineImportList_error_iff children st).2 hx
          rw [hcl] at he
          exact absurd he (by simp)
      cases arg with
      | none => simp [hc]
      | some fileId => simp [hc]
  | .plain children =>
    intro st
    rw [checkInlineImport, PNode.hasBadImport]
    exact checkInlineImportList_error_iff children st
termination_by structural n

theorem checkInlineImportList_error_iff (l : List PNode) : ∀ st : Pass2St,
    (∃ e, checkInlineImportList l st = .error e) ↔ PNode.listHasBadImport l = true := by
  match l with
  | [] =>
    intro st
    simp [checkInlineImportList, PNode.listHasBadImport]
  | n :: ns =>
    intro st
    rw [checkInlineImportList, PNode.listHasBadImport]
    cases hc : checkInlineImport n st with
    | error e =>
      have hb : PNode.hasBadImport n = true := (checkInlineImport_error_iff n st).1 ⟨e, hc⟩
      simp [hb]
    | ok st1 =>
      have hb : PNode.hasBadImport n = false := by
        cases hx : PNode.hasBadImport n with
        | false => rfl
        | true =>
          obtain ⟨e, he⟩ := (checkInlineImport_error_iff n st).2 hx
          rw [hc] at he
          exact absurd he (by simp)
      rw [hb, Bool.false_or]
      exact checkInlineImportList_error_iff ns st1
termination_by structural l
end

theorem preProcessPass2_error_iff (stmts : List PreStmt) : ∀ acc : Pass2Out,
    (∃ e, preProcessPass2 stmts acc = .error e) ↔
      (stmts.any (fun s => PNode.listHasBadImport s.nodes)) = true := by
  induction stmts with
  | nil => intro acc; simp [preProcessPass2]
  | cons stmt rest ih =>
    intro acc
    rw [preProcessPass2, List.any_cons]
    cases hc : checkInlineImportList stmt.nodes
        { declared := acc.declared, inlineImports := acc.inlineImports } with
    | error e =>
      have hb : PNode.listHasBadImport stmt.nodes = true :=
        (checkInlineImportList_error_iff stmt.nodes _).1 ⟨e, hc⟩
      simp [hb]
    | ok st1 =>
      have hb : PNode.listHasBadImport stmt.nodes = false := by
        cases hx : PNode.listHasBadImport stmt.nodes with
        | false => rfl
        | true =>
          obtain ⟨e, he⟩ := (checkInlineImportList_error_iff stmt.nodes _).2 hx
          rw [hc] at he
          exact absurd he (by simp)
      rw [hb, Bool.false_or]
      have key : ∀ (c : Prop) (_inst : Decidable c) (a b : Pass2Out),
          (∃ e, (if c then preProcessPass2 rest a else preProcessPass2 rest b) = .error e) ↔
            (rest.any (fun s => PNode.listHasBadImport s.nodes)) = true := by
        intro c _inst a b
        by_cases hcp : c
        · rw [if_pos hcp]
          exact ih a
        · rw [if_neg hcp]
          exact ih b
      match stmt with
      | .emptyStmt => exact ih _
      | .otherStmt _ => exact ih _
      | .varStmt _ _ _ => exact ih _
      | .declLike kind name isExport isDefault ga nodes =>
        match kind, name, isExport, isDefault with
        | .funcK, none, true, true => exact key _ _ _ _
        | .classK, none, true, true => exact key _ _ _ _
        | .enumK, none, true, true => exact ih _
        | .interfaceK, none, true, true => exact ih _
        | .typeAliasK, none, true, true => exact ih _
        | .moduleK, none, true, true => exact ih _
        | _, some n, _, _ => exact ih _
        | _, none, false, false => exact ih _
        | _, none, false, true => exact ih _
        | _, none, true, false => exact ih _

/-- C7: rewriting inline type-only imports raises the unsupported-construct
error if and only if some inline `import()` type's argument is not a
literal string; the error aborts the whole `preProcess` run (its result is
an error, not partial output), and a unit whose inline imports all have
literal-string arguments preprocesses without error. -/
theorem claim_C7_inlineImports :
    (∀ (n : PNode) (st : Pass2St),
      (∃ e, checkInlineImport n st = .error e) ↔ PNode.hasBadImport n = true) ∧
    (∀ (stmts : List PreStmt) (typeRefs : List String),
      (∃ e, preProcess stmts typeRefs = .error e) ↔
        (stmts.any (fun s => PNode.listHasBadImport s.nodes)) = true) ∧
    (∀ (stmts : List PreStmt) (typeRefs : List String),
      (stmts.all (fun s => !PNode.listHasBadImport s.nodes)) = true →
        ∃ out, preProcess stmts typeRefs = .ok out) := by
  have hpre : ∀ (stmts : List PreStmt) (typeRefs : List String),
      (∃ e, preProcess stmts typeRefs = .error e) ↔
        (stmts.any (fun s => PNode.listHasBadImport s.nodes)) = true := by
    intro stmts typeRefs
    rw [preProcess]
    cases hp2 : preProcessPass2 stmts
        { declared := (preProcessPass1 stmts
            { declared := [], exported := [], defaultExport := "" }).declared,
          inlineImports := [],
          defaultExport := (preProcessPass1 stmts
            { declared := [], exported := [], defaultExport := "" }).defaultExport } with
    | error e =>
      have := (preProcessPass2_error_iff stmts _).1 ⟨e, hp2⟩
      simp [this]
    | ok p2 =>
      have hz : (stmts.any (fun s => PNode.listHasBadImport s.nodes)) = false := by
        cases hx : stmts.any (fun s => PNode.listHasBadImport s.nodes) with
        | false => rfl
        | true =>
          obtain ⟨e, he⟩ := (preProcessPass2_error_iff stmts _).2 hx
          rw [hp2] at he
          exact absurd he (by simp)
      simp [hz]
  refine ⟨checkInlineImport_error_iff, hpre, ?_⟩
  intro stmts typeRefs hall
  have hany : (stmts.any (fun s => PNode.listHasBadImport s.nodes)) = false := by
    cases hx : stmts.any (fun s => PNode.listHasBadImport s.nodes) with
    | false => rfl
    | true =>
      obtain ⟨s, hs, hbad⟩ := List.any_eq_true.1 hx
      have := List.all_eq_true.1 hall s hs
      simp [hbad] at this
  cases hres : preProcess stmts typeRefs with
  | error e =>
    have := (hpre stmts typeRefs).1 ⟨e, hres⟩
    rw [hany] at this
    exact absurd this (by simp)
  | ok out => exact ⟨out, rfl⟩

/-- Closed instance of `claim_C7_inlineImports`: a unit with one
inline import with a literal-string argument preprocesses without error. -/
theorem claim_C7_inlineImports_witness :
    ∃ out, preProcess [PreStmt.otherStmt [.importType (some "./mod") []]] [] = .ok out :=
  claim_C7_inlineImports.2.2 [PreStmt.otherStmt [.importType (some "./mod") []]] [] (by decide)

/-! ### Reference suppression (claim C2) -/

/-- The true left-most (root) identifier of a reference expression. -/
def leftmostRoot : ESExpr → Option String
  | .ident n => some n
  | .member obj _ => leftmostRoot obj
  | .lit _ => none

/-- The left-most-identifier computation actually performed by
`pushReference`: it looks through at most one `MemberExpression` level. -/
def shallowRootName : ESExpr → Option String
  | .ident n => some n
  | .member (.ident n) _ => some n
  | _ => none

theorem pushReference_eq (id : ESExpr) (s : St) :
    pushReference id s =
      (match shallowRootName id with
       | some n =>
         if isBound n s.scopes then s
         else pushRaw ⟨natToString s.counter, id⟩ { s with counter := s.counter + 1 }
       | none => pushRaw ⟨natToString s.counter, id⟩ { s with counter := s.counter + 1 }) := by
  match id with
  | .ident n => rfl
  | .lit v => rfl
  | .member (.ident n) p => rfl
  | .member (.member o p2) p => rfl
  | .member (.lit v) p => rfl

/-- C2 counterexample: inside a scope binding `A`, a reference to the
qualified name `A.B.C` (a member expression whose object is itself a member
expression) IS emitted although its left-most root identifier `A` is bound:
the suppression check looks through only one member level. -/
theorem claim_C2_counterexample :
    leftmostRoot (.member (.member (.ident "A") "B") "C") = some "A" ∧
    isBound "A" [["A"]] = true ∧
    pushReference (.member (.member (.ident "A") "B") "C") ⟨[["A"]], [], 1⟩ =
      ⟨[["A"]], [⟨"1", .member (.member (.ident "A") "B") "C"⟩], 2⟩ := by
  decide

/-- C2 (amended): the builder emits a reference if and only if the
expression's *shallow* root — computed only for a bare identifier or a
member expression whose object is directly an identifier — is not bound in
any active scope; deeper qualified names are always emitted.  In
particular, for `function f<T>(x: T): T` zero references to `T` are
emitted (only the self-reference to `f`), while with return type `Bar` the
same signature emits exactly one reference to `Bar`. -/
theorem claim_C2_amended :
    (∀ (id : ESExpr) (s : St),
      ((pushReference id s).params.length = s.params.length + 1 ↔
        ¬ (∃ n, shallowRootName id = some n ∧ isBound n s.scopes = true)) ∧
      ((pushReference id s).params.length = s.params.length ↔
        (∃ n, shallowRootName id = some n ∧ isBound n s.scopes = true))) ∧
    (∃ s', convertParametersAndType
        (.mk none [.mk "T" none none] [some (.typeRef (.ident "T") [])]
          (some (.typeRef (.ident "T") [])))
        (pushIdentifierReference "f" ⟨[], [], 1⟩) = .ok s' ∧
      (s'.params.filter (fun r => r.right = .ident "T")).length = 0 ∧
      s'.params.length = 1) ∧
    (∃ s', convertParametersAndType
        (.mk none [.mk "T" none none] [some (.typeRef (.ident "T") [])]
          (some (.typeRef (.ident "Bar") [])))
        (pushIdentifierReference "f" ⟨[], [], 1⟩) = .ok s' ∧
      (s'.params.filter (fun r => r.right = .ident "Bar")).length = 1) := by
  refine ⟨?_, ⟨⟨[], [⟨"1", .ident "f"⟩], 2⟩, by decide, by decide, by decide⟩,
    ⟨⟨[], [⟨"1", .ident "f"⟩, ⟨"2", .ident "Bar"⟩], 3⟩, by decide, by decide⟩⟩
  intro id s
  rw [pushReference_eq]
  split
  next n hr =>
    by_cases hb : isBound n s.scopes
    · rw [if_pos hb]
      constructor
      · constructor
        · intro hlen
          omega
        · intro hno
          exact absurd ⟨n, hr, hb⟩ hno
      · constructor
        · intro _
          exact ⟨n, hr, hb⟩
        · intro _
          rfl
    · rw [if_neg hb]
      constructor
      · constructor
        · intro _ ⟨m, hm, hbm⟩
          rw [hm] at hr
          cases hr
          exact hb hbm
        · intro _
          simp [pushRaw]
      · constructor
        · intro hlen
          simp [pushRaw] at hlen
        · intro ⟨m, hm, hbm⟩
          rw [hm] at hr
          cases hr
          exact absurd hbm hb
  next hr =>
    constructor
    · constructor
      · intro _ ⟨m, hm, _⟩
        rw [hm] at hr
        cases hr
      · intro _
        simp [pushRaw]
    · constructor
      · intro hlen
        simp [pushRaw] at hlen
      · intro ⟨m, hm, _⟩
        rw [hm] at hr
        cases hr

/-! ### Scope balance (claim C3) -/

@[simp]
theorem scopes_pushRaw (r : Ref) (s : St) : (pushRaw r s).scopes = s.scopes := rfl

@[simp]
theorem scopes_pushReference (id : ESExpr) (s : St) :
    (pushReference id s).scopes = s.scopes := by
  rw [pushReference_eq]
  split
  next n hr =>
    by_cases hb : isBound n s.scopes
    · rw [if_pos hb]
    · rw [if_neg hb]
      rfl
  next hr => rfl

@[simp]
theorem scopes_pushIdentifierReference (n : String) (s : St) :
    (pushIdentifierReference n s).scopes = s.scopes :=
  scopes_pushReference _ _

@[simp]
theorem length_scopes_pushScope (s : St) :
    (pushScope s).scopes.length = s.scopes.length + 1 := rfl

@[simp]
theorem length_scopes_pushTypeVariable (n : String) (s : St) :
    (pushTypeVariable n s).scopes.length = s.scopes.length := by
  rcases s with ⟨sc, p, c⟩
  cases sc <;> rfl

@[simp]
theorem length_scopes_popScope (n : Nat) (s : St) :
    (popScope n s).scopes.length = s.scopes.length - n := by
  simp [popScope]

theorem scopes_convertComputedPropertyName {name : Option Expr} {s s' : St}
    (h : convertComputedPropertyName name s = .ok s') : s'.scopes = s.scopes := by
  match name with
  | none =>
    cases h
    rfl
  | some e =>
    match e with
    | .lit v => cases h; rfl
    | .ident n => cases h; simp
    | .access o p =>
      rw [convertComputedPropertyName] at h
      split at h
      · cases h
        simp
      · simp at h
    | .other => simp [convertComputedPropertyName] at h

theorem scopes_foldl_pushIdentifierReference (elems : List (Option String × String)) :
    ∀ s : St,
      (elems.foldl (fun acc d => pushIdentifierReference (d.1.getD d.2) acc) s).scopes =
        s.scopes := by
  induction elems with
  | nil => intro s; rfl
  | cons d rest ih =>
    intro s
    rw [List.foldl_cons, ih]
    simp

theorem length_foldl_pushTypeVariable (decls : List (String × Option TypeNode)) :
    ∀ s : St,
      ((decls.foldl (fun acc d => pushTypeVariable d.1 acc) s)).scopes.length =
        s.scopes.length := by
  induction decls with
  | nil => intro s; rfl
  | cons d rest ih =>
    intro s
    rw [List.foldl_cons, ih]
    simp

theorem depth_hoistNamespaceStmts (stmts : List NamespaceStmt) :
    ∀ s s' : St, hoistNamespaceStmts stmts s = .ok s' →
      s'.scopes.length = s.scopes.length := by
  induction stmts with
  | nil =>
    intro s s' h
    cases h
    rfl
  | cons stmt rest ih =>
    intro s s' h
    match stmt with
    | .enumDecl n | .funcDecl n _ | .classOrInterfaceDecl n _ _ _
    | .typeAliasDecl n _ _ | .moduleDecl n _ | .moduleDeclNoBody n =>
      rw [hoistNamespaceStmts] at h
      have := ih _ _ h
      simpa using this
    | .varStmt decls =>
      rw [hoistNamespaceStmts] at h
      have := ih _ _ h
      rw [this, length_foldl_pushTypeVariable]
    | .exportDecl clause =>
      rw [hoistNamespaceStmts] at h
      exact ih _ _ h
    | .unsupportedStmt =>
      rw [hoistNamespaceStmts] at h
      simp at h

mutual
theorem depth_convertTypeNode (o : Option TypeNode) : ∀ s s' : St,
    convertTypeNode o s = .ok s' → s'.scopes.length = s.scopes.length := by
  match o with
  | none =>
    intro s s' h
    cases h
    rfl
  | some t =>
    intro s s' h
    rw [convertTypeNode] at h
    exact depth_convertTypeNodeCore t s s' h
termination_by structural o

theorem depth_convertTypeNodeCore (t : TypeNode) : ∀ s s' : St,
    convertTypeNodeCore t s = .ok s' → s'.scopes.length = s.scopes.length := by
  match t with
  | .ignored =>
    intro s s' h
    cases h
    rfl
  | .typeRef name args =>
    intro s s' h
    rw [convertTypeNodeCore] at h
    have := depth_convertTypeNodeList args _ s' h
    simpa using this
  | .typeLit members =>
    intro s s' h
    rw [convertTypeNodeCore] at h
    exact depth_convertMembers members s s' h
  | .arrayType elem =>
    intro s s' h
    rw [convertTypeNodeCore] at h
    exact depth_convertTypeNodeCore elem s s' h
  | .tupleType elems =>
    intro s s' h
    rw [convertTypeNodeCore] at h
    exact depth_convertTypeNodeList elems s s' h
  | .wrapped ty =>
    intro s s' h
    rw [convertTypeNodeCore] at h
    exact depth_convertTypeNodeCore ty s s' h
  | .unionOrIntersection types =>
    intro s s' h
    rw [convertTypeNodeCore] at h
    exact depth_convertTypeNodeList types s s' h
  | .mapped paramName constraint ty nameType =>
    intro s s' h
    rw [convertTypeNodeCore] at h
    split at h
    · simp at h
    next s1 heq1 =>
      split at h
      · simp at h
      next s3 heq3 =>
        split at h
        · simp at h
        next s4 heq4 =>
          have e1 := depth_convertTypeNode constraint s s1 heq1
          have e3 := depth_convertTypeNode ty _ s3 heq3
          simp only [length_scopes_pushTypeVariable, length_scopes_pushScope] at e3
          have e4 := depth_convertTypeNode nameType s3 s4 heq4
          cases h
          simp only [length_scopes_popScope]
          omega
  | .conditional checkType extendsType trueType falseType =>
    intro s s' h
    rw [convertTypeNodeCore] at h
    split at h
    · simp at h
    next s1 heq1 =>
      split at h
      · simp at h
      next s2 heq2 =>
        split at h
        · simp at h
        next s3 heq3 =>
          split at h
          · simp at h
          next s4 heq4 =>
            have e1 := depth_convertTypeNodeCore checkType s s1 heq1
            have e2 := depth_convertTypeNodeCore extendsType _ s2 heq2
            simp only [length_scopes_pushScope] at e2
            have e3 := depth_convertTypeNodeCore trueType s2 s3 heq3
            have e4 := depth_convertTypeNodeCore falseType s3 s4 heq4
            cases h
            simp only [length_scopes_popScope]
            omega
  | .indexedAccess objectType indexType =>
    intro s s' h
    rw [convertTypeNodeCore] at h
    split at h
    · simp at h
    next s1 heq1 =>
      have e1 := depth_convertTypeNodeCore objectType s s1 heq1
      have e2 := depth_convertTypeNodeCore indexType s1 s' h
      omega
  | .functionOrCtor sig =>
    intro s s' h
    rw [convertTypeNodeCore] at h
    exact depth_convertParametersAndType sig s s' h
  | .typeQuery exprName =>
    intro s s' h
    cases h
    simp
  | .restType ty =>
    intro s s' h
    rw [convertTypeNodeCore] at h
    exact depth_convertTypeNodeCore ty s s' h
  | .optionalType ty =>
    intro s s' h
    rw [convertTypeNodeCore] at h
    exact depth_convertTypeNodeCore ty s s' h
  | .templateLiteral spanTypes =>
    intro s s' h
    rw [convertTypeNodeCore] at h
    exact depth_convertTypeNodeList spanTypes s s' h
  | .inferType paramName =>
    intro s s' h
    cases h
    simp
  | .unsupportedType =>
    intro s s' h
    simp [convertTypeNodeCore] at h
termination_by structural t

theorem depth_convertTypeNodeList (l : List TypeNode) : ∀ s s' : St,
    convertTypeNodeList l s = .ok s' → s'.scopes.length = s.scopes.length := by
  match l with
  | [] =>
    intro s s' h
    cases h
    rfl
  | t :: ts =>
    intro s s' h
    rw [convertTypeNodeList] at h
    split at h
    · simp at h
    next s1 heq =>
      have e1 := depth_convertTypeNodeCore t s s1 heq
      have e2 := depth_convertTypeNodeList ts s1 s' h
      omega
termination_by structural l

theorem depth_convertMembers (l : List Member) : ∀ s s' : St,
    convertMembers l s = .ok s' → s'.scopes.length = s.scopes.length := by
  match l with
  | [] =>
    intro s s' h
    cases h
    rfl
  | .propertyLike computedName ty :: rest =>
    intro s s' h
    rw [convertMembers] at h
    split at h
    · simp at h
    next s1 heq1 =>
      split at h
      · simp at h
      next s2 heq2 =>
        have e1 := congrArg List.length (scopes_convertComputedPropertyName heq1)
        have e2 := depth_convertTypeNode ty s1 s2 heq2
        have e3 := depth_convertMembers rest s2 s' h
        omega
  | .methodLike sig :: rest =>
    intro s s' h
    rw [convertMembers] at h
    split at h
    · simp at h
    next s1 heq =>
      have e1 := depth_convertParametersAndType sig s s1 heq
      have e2 := depth_convertMembers rest s1 s' h
      omega
  | .unsupportedMember :: rest =>
    intro s s' h
    simp [convertMembers] at h
termination_by structural l

theorem depth_convertTypeParameters (l : List TypeParamD) : ∀ s s' : St,
    convertTypeParameters l s = .ok s' → s'.scopes.length = s.scopes.length + l.length := by
  match l with
  | [] =>
    intro s s' h
    cases h
    rfl
  | .mk name constraint dflt :: rest =>
    intro s s' h
    rw [convertTypeParameters] at h
    split at h
    · simp at h
    next s1 heq1 =>
      split at h
      · simp at h
      next s2 heq2 =>
        have e1 := depth_convertTypeNode constraint s s1 heq1
        have e2 := depth_convertTypeNode dflt s1 s2 heq2
        have e3 := depth_convertTypeParameters rest _ s' h
        simp only [length_scopes_pushTypeVariable, length_scopes_pushScope] at e3
        simp only [List.length_cons]
        omega
termination_by structural l

theorem depth_convertParametersAndType (sig : Sig) : ∀ s s' : St,
    convertParametersAndType sig s = .ok s' → s'.scopes.length = s.scopes.length := by
  match sig with
  | .mk computedName typeParams params type =>
    intro s s' h
    rw [convertParametersAndType] at h
    split at h
    · simp at h
    next s1 heq1 =>
      split at h
      · simp at h
      next s2 heq2 =>
        split at h
        · simp at h
        next s3 heq3 =>
          split at h
          · simp at h
          next s4 heq4 =>
            have e1 := congrArg List.length (scopes_convertComputedPropertyName heq1)
            have e2 := depth_convertTypeParameters typeParams s1 s2 heq2
            have e3 := depth_convertParamTypes params s2 s3 heq3
            have e4 := depth_convertTypeNode type s3 s4 heq4
            cases h
            simp only [length_scopes_popScope]
            omega
termination_by structural sig

theorem depth_convertParamTypes (l : List (Option TypeNode)) : ∀ s s' : St,
    convertParamTypes l s = .ok s' → s'.scopes.length = s.scopes.length := by
  match l with
  | [] =>
    intro s s' h
    cases h
    rfl
  | ty :: rest =>
    intro s s' h
    rw [convertParamTypes] at h
    split at h
    · simp at h
    next s1 heq =>
      have e1 := depth_convertTypeNode ty s s1 heq
      have e2 := depth_convertParamTypes rest s1 s' h
      omega
termination_by structural l

theorem depth_convertHeritageClauses (l : List HeritageType) : ∀ s s' : St,
    convertHeritageClauses l s = .ok s' → s'.scopes.length = s.scopes.length := by
  match l with
  | [] =>
    intro s s' h
    cases h
    rfl
  | .mk expr args :: rest =>
    intro s s' h
    rw [convertHeritageClauses] at h
    split at h
    · simp at h
    next es heq0 =>
      split at h
      · simp at h
      next s1 heq1 =>
        have e1 := depth_convertTypeNodeList args _ s1 heq1
        simp only [scopes_pushReference] at e1
        have e2 := depth_convertHeritageClauses rest s1 s' h
        omega
termination_by structural l

theorem depth_convertNamespaceStmt (stmt : NamespaceStmt) : ∀ s s' : St,
    convertNamespaceStmt stmt s = .ok s' → s'.scopes.length = s.scopes.length := by
  match stmt with
  | .varStmt decls =>
    intro s s' h
    rw [convertNamespaceStmt] at h
    exact depth_convertVarDeclTypes decls s s' h
  | .funcDecl name sig =>
    intro s s' h
    rw [convertNamespaceStmt] at h
    exact depth_convertParametersAndType sig s s' h
  | .classOrInterfaceDecl name typeParams heritage members =>
    intro s s' h
    rw [convertNamespaceStmt] at h
    split at h
    · simp at h
    next s1 heq1 =>
      split at h
      · simp at h
      next s2 heq2 =>
        split at h
        · simp at h
        next s3 heq3 =>
          have e1 := depth_convertTypeParameters typeParams s s1 heq1
          have e2 := depth_convertHeritageClauses heritage s1 s2 heq2
          have e3 := depth_convertMembers members s2 s3 heq3
          cases h
          simp only [length_scopes_popScope]
          omega
  | .typeAliasDecl name typeParams ty =>
    intro s s' h
    rw [convertNamespaceStmt] at h
    split at h
    · simp at h
    next s1 heq1 =>
      split at h
      · simp at h
      next s2 heq2 =>
        have e1 := depth_convertTypeParameters typeParams s s1 heq1
        have e2 := depth_convertTypeNodeCore ty s1 s2 heq2
        cases h
        simp only [length_scopes_popScope]
        omega
  | .moduleDecl name stmts =>
    intro s s' h
    rw [convertNamespaceStmt] at h
    split at h
    · simp at h
    next s1 heq1 =>
      split at h
      · simp at h
      next s2 heq2 =>
        have e1 := depth_hoistNamespaceStmts stmts _ s1 heq1
        simp only [length_scopes_pushScope] at e1
        have e2 := depth_convertNamespaceStmts stmts s1 s2 heq2
        cases h
        simp only [length_scopes_popScope]
        omega
  | .moduleDeclNoBody name =>
    intro s s' h
    simp [convertNamespaceStmt] at h
  | .enumDecl name =>
    intro s s' h
    cases h
    rfl
  | .exportDecl clause =>
    intro s s' h
    match clause with
    | some (.namespaceExport n) => simp [convertNamespaceStmt] at h
    | some (.named elems) =>
      rw [convertNamespaceStmt] at h
      cases h
      rw [scopes_foldl_pushIdentifierReference]
    | none =>
      cases h
      rfl
  | .unsupportedStmt =>
    intro s s' h
    simp [convertNamespaceStmt] at h
termination_by structural stmt

theorem depth_convertNamespaceStmts (l : List NamespaceStmt) : ∀ s s' : St,
    convertNamespaceStmts l s = .ok s' → s'.scopes.length = s.scopes.length := by
  match l with
  | [] =>
    intro s s' h
    cases h
    rfl
  | stmt :: rest =>
    intro s s' h
    rw [convertNamespaceStmts] at h
    split at h
    · simp at h
    next s1 heq =>
      have e1 := depth_convertNamespaceStmt stmt s s1 heq
      have e2 := depth_convertNamespaceStmts rest s1 s' h
      omega
termination_by structural l

theorem depth_convertVarDeclTypes (l : List (String × Option TypeNode)) : ∀ s s' : St,
    convertVarDeclTypes l s = .ok s' → s'.scopes.length = s.scopes.length := by
  match l with
  | [] =>
    intro s s' h
    cases h
    rfl
  | (name, ty) :: rest =>
    intro s s' h
    rw [convertVarDeclTypes] at h
    split at h
    · simp at h
    next s1 heq =>
      have e1 := depth_convertTypeNode ty s s1 heq
      have e2 := depth_convertVarDeclTypes rest s1 s' h
      omega
termination_by structural l
end

theorem depth_convertNamespace (body : Option (List NamespaceStmt)) (s s' : St)
    (h : convertNamespace body s = .ok s') : s'.scopes.length = s.scopes.length := by
  match body with
  | none => simp [convertNamespace] at h
  | some stmts =>
    rw [convertNamespace] at h
    split at h
    · simp at h
    next s1 heq1 =>
      split at h
      · simp at h
      next s2 heq2 =>
        have e1 := depth_hoistNamespaceStmts stmts _ s1 heq1
        simp only [length_scopes_pushScope] at e1
        have e2 := depth_convertNamespaceStmts stmts s1 s2 heq2
        cases h
        simp only [length_scopes_popScope]
        omega

/-- C3: for every declaration subtree the graph builder processes —
parameter-and-type conversion, type nodes of every form (including the
scope-pushing mapped and conditional types), member lists, heritage
clauses, and namespace bodies — the scope-stack depth after a successful
conversion equals the depth before it; `convertTypeParameters` alone leaves
the stack exactly `params.length` deeper, and its callers pop exactly that
many scopes (exact LIFO balance). -/
theorem claim_C3_scope_balance :
    (∀ (sig : Sig) (s s' : St), convertParametersAndType sig s = .ok s' →
      s'.scopes.length = s.scopes.length) ∧
    (∀ (o : Option TypeNode) (s s' : St), convertTypeNode o s = .ok s' →
      s'.scopes.length = s.scopes.length) ∧
    (∀ (members : List Member) (s s' : St), convertMembers members s = .ok s' →
      s'.scopes.length = s.scopes.length) ∧
    (∀ (heritage : List HeritageType) (s s' : St), convertHeritageClauses heritage s = .ok s' →
      s'.scopes.length = s.scopes.length) ∧
    (∀ (body : Option (List NamespaceStmt)) (s s' : St), convertNamespace body s = .ok s' →
      s'.scopes.length = s.scopes.length) ∧
    (∀ (typeParams : List TypeParamD) (s s' : St), convertTypeParameters typeParams s = .ok s' →
      s'.scopes.length = s.scopes.length + typeParams.length) :=
  ⟨fun sig => depth_convertParametersAndType sig,
   fun o => depth_convertTypeNode o,
   fun members => depth_convertMembers members,
   fun heritage => depth_convertHeritageClauses heritage,
   fun body s s' => depth_convertNamespace body s s',
   fun typeParams => depth_convertTypeParameters typeParams⟩

/-- Closed instance of `claim_C3_scope_balance`: converting a mapped type
(which pushes and pops a scope) from the empty stack returns to depth 0,
and converting a one-parameter type-parameter list leaves depth 1. -/
theorem claim_C3_scope_balance_witness :
    (convertTypeNode (some (.mapped "K" none (some .ignored) none)) ⟨[], [], 1⟩ =
        .ok ⟨[], [], 1⟩ ∧
      (⟨[], [], 1⟩ : St).scopes.length = (⟨[], [], 1⟩ : St).scopes.length) ∧
    (convertTypeParameters [.mk "T" none none] ⟨[], [], 1⟩ = .ok ⟨[["T"]], [], 1⟩ ∧
      (⟨[["T"]], [], 1⟩ : St).scopes.length =
        (⟨[], [], 1⟩ : St).scopes.length + [TypeParamD.mk "T" none none].length) :=
  ⟨⟨by decide, claim_C3_scope_balance.2.1 (some (.mapped "K" none (some .ignored) none))
      ⟨[], [], 1⟩ ⟨[], [], 1⟩ (by decide)⟩,
   ⟨by decide, claim_C3_scope_balance.2.2.2.2.2 [.mk "T" none none]
      ⟨[], [], 1⟩ ⟨[["T"]], [], 1⟩ (by decide)⟩⟩

/-! ### Declaration merging (claim C1) -/

/-- Whether a body entry is the named declaration node for `name`. -/
def entryNamed (name : String) (e : BodyEntry) : Bool :=
  match e.item with
  | .funcDecl n _ => n == name
  | _ => false

/-- The number of body entries that are the named declaration node for
`name`. -/
def countNamed (name : String) (body : List BodyEntry) : Nat :=
  body.countP (entryNamed name)

theorem entryNamed_withParams (name : String) (e : BodyEntry) (ps : List Ref) :
    entryNamed name (withParams e ps) = entryNamed name e := by
  rcases e with ⟨a, b, item⟩
  cases item <;> rfl

theorem length_setParamsAt (body : List BodyEntry) : ∀ (i : Nat) (ps : List Ref),
    (setParamsAt body i ps).length = body.length := by
  induction body with
  | nil => intro i ps; rfl
  | cons e rest ih =>
    intro i ps
    cases i with
    | zero => rfl
    | succ j => simp [setParamsAt, ih]

theorem countNamed_setParamsAt (name : String) (body : List BodyEntry) :
    ∀ (i : Nat) (ps : List Ref),
      countNamed name (setParamsAt body i ps) = countNamed name body := by
  induction body with
  | nil => intro i ps; rfl
  | cons e rest ih =>
    intro i ps
    cases i with
    | zero => simp [setParamsAt, countNamed, List.countP_cons, entryNamed_withParams]
    | succ j =>
      simp only [setParamsAt, countNamed, List.countP_cons]
      have := ih j ps
      simp only [countNamed] at this
      rw [this]

theorem get?_setParamsAt_self (body : List BodyEntry) : ∀ (i : Nat) (ps : List Ref),
    (setParamsAt body i ps).get? i = (body.get? i).map (fun e => withParams e ps) := by
  induction body with
  | nil => intro i ps; cases i <;> rfl
  | cons e rest ih =>
    intro i ps
    cases i with
    | zero => rfl
    | succ j => simpa [setParamsAt] using ih j ps

theorem length_setStopAt (body : List BodyEntry) : ∀ (i v : Nat),
    (setStopAt body i v).length = body.length := by
  induction body with
  | nil => intro i v; rfl
  | cons e rest ih =>
    intro i v
    cases i with
    | zero => rfl
    | succ j => simp [setStopAt, ih]

theorem countNamed_setStopAt (name : String) (body : List BodyEntry) : ∀ (i v : Nat),
    countNamed name (setStopAt body i v) = countNamed name body := by
  induction body with
  | nil => intro i v; rfl
  | cons e rest ih =>
    intro i v
    cases i with
    | zero =>
      simp only [setStopAt, countNamed, List.countP_cons]
      have : entryNamed name { e with stop := v } = entryNamed name e := rfl
      rw [this]
    | succ j =>
      simp only [setStopAt, countNamed, List.countP_cons]
      have := ih j v
      simp only [countNamed] at this
      rw [this]

theorem get?_setStopAt_self (body : List BodyEntry) : ∀ (i v : Nat),
    (setStopAt body i v).get? i = (body.get? i).map (fun e => { e with stop := v }) := by
  induction body with
  | nil => intro i v; cases i <;> rfl
  | cons e rest ih =>
    intro i v
    cases i with
    | zero => rfl
    | succ j => simpa [setStopAt] using ih j v

theorem length_bumpAfterGo (body : List BodyEntry) : ∀ (i idx stop : Nat),
    (bumpAfterGo i idx stop body).length = body.length := by
  induction body with
  | nil => intro i idx stop; rfl
  | cons e rest ih =>
    intro i idx stop
    simp [bumpAfterGo, ih]

theorem countNamed_bumpAfterGo (name : String) (body : List BodyEntry) :
    ∀ (i idx stop : Nat),
      countNamed name (bumpAfterGo i idx stop body) = countNamed name body := by
  induction body with
  | nil => intro i idx stop; rfl
  | cons e rest ih =>
    intro i idx stop
    simp only [bumpAfterGo, countNamed, List.countP_cons]
    have h1 : entryNamed name (if idx < i then { e with start := stop, stop := stop } else e) =
        entryNamed name e := by
      split <;> rfl
    have h2 := ih (i + 1) idx stop
    simp only [countNamed] at h2
    rw [h1, h2]

theorem get?_bumpAfterGo (body : List BodyEntry) : ∀ (i idx stop k : Nat),
    (bumpAfterGo i idx stop body).get? k =
      (body.get? k).map (fun e => if idx < i + k then { e with start := stop, stop := stop }
        else e) := by
  induction body with
  | nil => intro i idx stop k; cases k <;> rfl
  | cons e rest ih =>
    intro i idx stop k
    cases k with
    | zero => simp [bumpAfterGo]
    | succ j =>
      simp only [bumpAfterGo, List.get?]
      rw [ih (i + 1) idx stop j]
      have : i + 1 + j = i + (j + 1) := by omega
      rw [this]

/-- C1: when the graph builder reaches a top-level statement whose declared
name already owns a GraphNode (declaration merging), `createDeclaration`
keeps exactly one named node for that name: the existing node's `start` is
untouched, its `end` is extended to the new statement's end, a fresh
reference to the node's own identifier is appended to it, and no node is
added or removed. -/
theorem claim_C1_declaration_merge (t : TransSt) (name : String) (range : Nat × Nat)
    (e : DeclEntry) (be : BodyEntry) (ps : List Ref)
    (hl : lookupDecl name t.decls = some e)
    (hb : t.body.get? e.idx = some be)
    (hitem : be.item = .funcDecl name ps)
    (hnb : isBound name e.scopes = false)
    (huniq : countNamed name t.body = 1) :
    countNamed name (Transformer.createDeclaration t range (some name)).1.body = 1 ∧
    (Transformer.createDeclaration t range (some name)).2.1 = e.idx ∧
    (Transformer.createDeclaration t range (some name)).1.body.get? e.idx =
      some ⟨be.start, range.2,
        .funcDecl name (ps ++ [⟨natToString t.counter, .ident name⟩])⟩ ∧
    (Transformer.createDeclaration t range (some name)).1.body.length = t.body.length := by
  have hps : paramsAt t.body e.idx = ps := by
    simp only [paramsAt, hb, hitem]
  have hpush : pushIdentifierReference name ⟨e.scopes, ps, t.counter⟩ =
      ⟨e.scopes, ps ++ [⟨natToString t.counter, .ident name⟩], t.counter + 1⟩ := by
    rw [pushIdentifierReference, pushReference_eq]
    show (if isBound name e.scopes = true then _ else _) = _
    rw [hnb]
    simp [pushRaw]
  have hcd : Transformer.createDeclaration t range (some name) =
      ({ body := bumpAfter e.idx range.2 (setStopAt (setParamsAt t.body e.idx
            (ps ++ [⟨natToString t.counter, .ident name⟩])) e.idx range.2),
         decls := t.decls, counter := t.counter + 1 }, e.idx, e.scopes) := by
    simp only [Transformer.createDeclaration, hl, hps, hpush]
  rw [hcd]
  refine ⟨?_, rfl, ?_, ?_⟩
  · rw [bumpAfter, countNamed_bumpAfterGo, countNamed_setStopAt, countNamed_setParamsAt]
    exact huniq
  · rw [bumpAfter, get?_bumpAfterGo, get?_setStopAt_self, get?_setParamsAt_self, hb]
    rcases be with ⟨bs, bst, bitem⟩
    cases hitem
    simp [withParams]
  · rw [bumpAfter, length_bumpAfterGo, length_setStopAt, length_setParamsAt]

/-- Closed instance of `claim_C1_declaration_merge`: after `interface Foo`
produced the node `⟨0, 30, funcDecl "Foo" []⟩`, merging `namespace Foo`
(range 31–60) keeps one node whose range is `0–60` with a self-reference
appended. -/
theorem claim_C1_declaration_merge_witness :
    countNamed "Foo" (Transformer.createDeclaration
        ⟨[⟨0, 30, .funcDecl "Foo" []⟩], [⟨"Foo", 0, []⟩], 1⟩ (31, 60) (some "Foo")).1.body = 1 ∧
    (Transformer.createDeclaration
        ⟨[⟨0, 30, .funcDecl "Foo" []⟩], [⟨"Foo", 0, []⟩], 1⟩ (31, 60) (some "Foo")).2.1 = 0 ∧
    (Transformer.createDeclaration
        ⟨[⟨0, 30, .funcDecl "Foo" []⟩], [⟨"Foo", 0, []⟩], 1⟩ (31, 60)
        (some "Foo")).1.body.get? 0 =
      some ⟨0, 60, .funcDecl "Foo" ([] ++ [⟨natToString 1, .ident "Foo"⟩])⟩ ∧
    (Transformer.createDeclaration
        ⟨[⟨0, 30, .funcDecl "Foo" []⟩], [⟨"Foo", 0, []⟩], 1⟩ (31, 60)
        (some "Foo")).1.body.length =
      ([⟨0, 30, .funcDecl "Foo" []⟩] : List BodyEntry).length :=
  claim_C1_declaration_merge ⟨[⟨0, 30, .funcDecl "Foo" []⟩], [⟨"Foo", 0, []⟩], 1⟩ "Foo"
    (31, 60) ⟨"Foo", 0, []⟩ ⟨0, 30, .funcDecl "Foo" []⟩ []
    (by decide) (by decide) (by decide) (by decide) (by decide)

/-! ### The concrete scenario (claim C5) -/

/-- Whether a body entry is a GraphNode: a named declaration node or an
always-retained anonymous (IIFE) node; pass-through import/export
statements are not GraphNodes. -/
def isGraphNode : BodyItem → Bool
  | .funcDecl _ _ => true
  | .iife _ => true
  | _ => false

/-- The names of the named GraphNodes, in body order. -/
def graphNodeNames (body : List BodyEntry) : List String :=
  body.filterMap (fun e =>
    match e.item with
    | .funcDecl n _ => some n
    | _ => none)

/-- All reference markers of all GraphNodes, in body order. -/
def allRefs (body : List BodyEntry) : List Ref :=
  body.foldr (fun e acc =>
    (match e.item with
     | .funcDecl _ ps => ps
     | .iife ps => ps
     | _ => []) ++ acc) []

/-- The preprocessor view of the unit
`export function foo(): Bar; export interface Bar {}`. -/
def c5PreStmts : List PreStmt :=
  [.declLike .funcK (some "foo") true false false [],
   .declLike .interfaceK (some "Bar") true false false []]

/-- The graph-builder view of the preprocessed and re-parsed unit:
`declare function foo(): Bar; declare interface Bar {}` followed by the
synthesized `export { foo, Bar };`. -/
def c5TopStmts : List (TopStmt × Nat × Nat) :=
  [(.funcDecl (some "foo") (.mk none [] [] (some (.typeRef (.ident "Bar") []))), 0, 24),
   (.classOrInterfaceDecl (some "Bar") [] [] [], 25, 50),
   (.exportDecl (some (.named [(none, "foo"), (none, "Bar")])) none, 51, 73)]

/-- C5: the unit `export function foo(): Bar; export interface Bar {}`
yields exactly two GraphNodes (`foo`, `Bar`), exactly one reference to
`Bar` (sitting on `foo`'s node), every reference targets one of the two
locally declared names (no external-library references; the unit imports
nothing), and the preprocessed text ends with the synthesized
`export { foo, Bar };` statement. -/
theorem claim_C5_concrete_scenario :
    ∃ (pre : PreOut) (trans : TransSt),
      preProcess c5PreStmts [] = .ok pre ∧
      pre.appended = "\nexport \x7b foo, Bar \x7d;\n" ∧
      pre.prepended = "" ∧
      (∀ bodyText : String,
        pre.prepended ++ bodyText ++ pre.appended =
          bodyText ++ "\nexport \x7b foo, Bar \x7d;\n") ∧
      Transformer.run c5TopStmts 1 = .ok trans ∧
      (trans.body.filter (fun e => isGraphNode e.item)).length = 2 ∧
      graphNodeNames trans.body = ["foo", "Bar"] ∧
      ((allRefs trans.body).filter (fun r => r.right = .ident "Bar")).length = 1 ∧
      (paramsAt trans.body 0).filter (fun r => r.right = .ident "Bar") =
        [⟨"2", .ident "Bar"⟩] ∧
      (allRefs trans.body).all
        (fun r => r.right = .ident "foo" || r.right = .ident "Bar") = true := by
  refine ⟨⟨["foo", "Bar"], ["foo", "Bar"], "", [], "\nexport \x7b foo, Bar \x7d;\n", "", []⟩,
    ⟨[⟨0, 24, .funcDecl "foo" [⟨"1", .ident "foo"⟩, ⟨"2", .ident "Bar"⟩]⟩,
      ⟨25, 50, .funcDecl "Bar" []⟩,
      ⟨51, 73, .exportNamed [("foo", "foo"), ("Bar", "Bar")] none⟩],
     [⟨"foo", 0, []⟩, ⟨"Bar", 1, []⟩], 3⟩,
    by decide, by decide, by decide, ?_, by decide, by decide, by decide, by decide,
    by decide, by decide⟩
  intro bodyText
  cases bodyText
  rfl

end RollupDts
